import Mathlib

/-!
Shallow embedding of the motionpy server-monitor core: the presence
reconciler and incremental analytics (`services/analytics.py`), the
persistence operations it drives (`services/database.py`), the
notification-side diffing (`services/notifications.py`), the roster
parser (`services/fivem_api.py`) and the poll tick
(`bot.py, MotionlifeBot.update_server_status`).

Timestamps are integer seconds (`Int`); Python float pings and averages
are rationals (`ℚ`).  Python dicts (insertion-ordered, unique keys) are
association lists `List (String × α)` with `dlookup`/`dinsert`/`derase`.
Fields of the source records that no claim touches (e.g. `endpoint`,
`parsed_identifiers`, matplotlib rendering) are omitted.
-/

set_option linter.unusedVariables false

/-! ### Python-dict operations -/

/-- `d[k]` lookup: first binding of `k`. -/
def dlookup {α : Type} (k : String) : List (String × α) → Option α
  | [] => none
  | (k', v) :: t => if k' = k then some v else dlookup k t

/-- `d[k] = v`: update in place if the key exists (dicts keep position),
append otherwise. -/
def dinsert {α : Type} (k : String) (v : α) : List (String × α) → List (String × α)
  | [] => [(k, v)]
  | (k', v') :: t => if k' = k then (k, v) :: t else (k', v') :: dinsert k v t

/-- `del d[k]`: remove the first binding of `k`. -/
def derase {α : Type} (k : String) : List (String × α) → List (String × α)
  | [] => []
  | (k', v') :: t => if k' = k then t else (k', v') :: derase k t

/-- `d.keys()`. -/
def dkeys {α : Type} (l : List (String × α)) : List String := l.map Prod.fst

/-! ### Data model -/

/-- One parsed roster entry as consumed by `update_player_data` /
`check_player_changes` (the dicts produced by `FiveMAPI.get_players`). -/
structure PEntry where
  name : String
  ping : Int
  identifiers : List String
  job : String
  role : String
deriving DecidableEq

/-- A raw `/players.json` entry before `FiveMAPI.get_players` cleaning. -/
structure RawPlayer where
  name : String
  ping : Int
  identifiers : List String
deriving DecidableEq

/-- `AnalyticsManager.current_players[name]` value. -/
structure TrackInfo where
  last_update : Int
  ping : Int
  identifiers : List String
  job : String
  role : String
deriving DecidableEq

/-- The optional fields of an event's `details` dict. -/
structure EventDetails where
  ping : Option Int := none
  identifiers : Option (List String) := none
  session_duration : Option Int := none
  reason : Option String := none
deriving DecidableEq

/-- One document of the `event_logs` collection. -/
structure Event where
  time : Int
  etype : String
  player : String
  details : EventDetails
deriving DecidableEq

/-- One document of the `ping_logs` collection. -/
structure PingSample where
  timestamp : Int
  low : ℚ
  avg : ℚ
  high : ℚ
  server_ping : ℚ
deriving DecidableEq

/-- One document of the `players` collection. -/
structure PlayerRec where
  identifiers : List String
  lastSeen : Int
  job : String
  role : String
  ping : Int
  playtime : Int
  firstSeen : Int
  totalSessions : Nat
deriving DecidableEq

/-- The MongoDB collections touched by the claims. -/
structure DB where
  players : List (String × PlayerRec)
  ping_logs : List PingSample
  event_logs : List Event
deriving DecidableEq

/-- Combined mutable state: database plus `AnalyticsManager` tracking
(`current_players`, `session_start_times`), `NotificationManager`
tracking (`previous_players`, `player_join_times`) and the bot flag. -/
structure Sys where
  db : DB
  current_players : List (String × TrackInfo)
  session_start_times : List (String × Int)
  previous_players : List String
  player_join_times : List (String × Int)
  last_server_online : Bool
deriving DecidableEq

/-- The result of `FiveMAPI.get_comprehensive_server_data` (fields the
tick consumes). -/
structure ServerData where
  online : Bool
  ping : ℚ
  players : List PEntry
deriving DecidableEq

/-! ### DatabaseManager -/

/-- `DatabaseManager.increment_player_sessions`: `$inc totalSessions` on
an existing record; no-op when the record does not exist (plain
`update_one`, no upsert). -/
def increment_player_sessions (name : String) (db : DB) : DB :=
  match dlookup name db.players with
  | some r => { db with players := dinsert name ({ r with totalSessions := r.totalSessions + 1 }) db.players }
  | none => db

/-- `DatabaseManager.log_event`: append the event document; a `"join"`
event additionally increments the player's session count. -/
def log_event (now : Int) (etype : String) (player : String) (details : EventDetails) (db : DB) : DB :=
  let db1 := { db with event_logs := db.event_logs ++ [⟨now, etype, player, details⟩] }
  if etype = "join" then increment_player_sessions player db1 else db1

/-- `DatabaseManager.upsert_player`: `$set` the metadata, `$inc playtime`
by `session_time`; on first insert `$setOnInsert` gives `firstSeen` and
`totalSessions = 0` (the `$inc` then creates `playtime = session_time`). -/
def upsert_player (now : Int) (name : String) (ids : List String) (ping : Int)
    (session_time : Int) (job role : String) (db : DB) : DB :=
  match dlookup name db.players with
  | some r =>
      let r1 : PlayerRec :=
        { r with identifiers := ids, lastSeen := now, job := job, role := role,
                 ping := ping, playtime := r.playtime + session_time }
      { db with players := dinsert name r1 db.players }
  | none =>
      let r1 : PlayerRec :=
        { identifiers := ids, lastSeen := now, job := job, role := role, ping := ping,
          playtime := session_time, firstSeen := now, totalSessions := 0 }
      { db with players := dinsert name r1 db.players }

/-- `DatabaseManager.log_ping_data`: append one sample. -/
def db_log_ping_data (now : Int) (low avg high server_ping : ℚ) (db : DB) : DB :=
  { db with ping_logs := db.ping_logs ++ [⟨now, low, avg, high, server_ping⟩] }

/-! ### AnalyticsManager.update_player_data -/

/-- Body of the roster loop of `update_player_data` for one entry:
skip falsy/`'Unknown'` names; first detection starts the session, logs a
join and accrues `0`; a continuing player accrues `30`; both refresh
`current_players[name]` and upsert the record. -/
def processEntry (now : Int) (s : Sys) (e : PEntry) : Sys :=
  if e.name = "" ∨ e.name = "Unknown" then s
  else
    let isNew := (dlookup e.name s.current_players).isNone
    let inc : Int := if isNew then 0 else 30
    let s1 :=
      if isNew then
        { s with session_start_times := dinsert e.name now s.session_start_times,
                 db := log_event now "join" e.name
                         ({ ping := some e.ping, identifiers := some e.identifiers }) s.db }
      else s
    let s2 := { s1 with current_players :=
                  dinsert e.name ⟨now, e.ping, e.identifiers, e.job, e.role⟩ s1.current_players }
    { s2 with db := upsert_player now e.name e.identifiers e.ping inc e.job e.role s2.db }

/-- The names added to `current_player_names` by the roster loop. -/
def validNames : List PEntry → List String
  | [] => []
  | e :: t => if e.name = "" ∨ e.name = "Unknown" then validNames t else e.name :: validNames t

/-- Body of the departure loop of `update_player_data` for one name:
log the leave (details = session duration only), flush
`session_duration mod 30` when positive, drop both tracking entries. -/
def processLeave (now : Int) (s : Sys) (p : String) : Sys :=
  let info := (dlookup p s.current_players).getD ⟨0, 0, [], "", ""⟩
  match dlookup p s.session_start_times with
  | some t0 =>
      let dur := now - t0
      let s1 := { s with db := log_event now "leave" p ({ session_duration := some dur }) s.db }
      let rem := dur % 30
      let s2 :=
        if 0 < rem then
          { s1 with db := upsert_player now p info.identifiers info.ping rem info.job info.role s1.db }
        else s1
      { s2 with session_start_times := derase p s2.session_start_times,
                current_players := derase p s2.current_players }
  | none => { s with current_players := derase p s.current_players }

/-- Keys of the tracking dict that are not in the new roster. -/
def leftNames (names : List String) : List String → List String
  | [] => []
  | p :: t => if p ∈ names then leftNames names t else p :: leftNames names t

/-- `AnalyticsManager.update_player_data`. -/
def update_player_data (now : Int) (players : List PEntry) (s : Sys) : Sys :=
  let s1 := players.foldl (processEntry now) s
  let names := validNames players
  (leftNames names (dkeys s1.current_players)).foldl (processLeave now) s1

/-! ### AnalyticsManager.log_ping_data -/

/-- The strictly positive pings of the tracked players. -/
def pingListOf : List (String × TrackInfo) → List Int
  | [] => []
  | kv :: t => if 0 < kv.2.ping then kv.2.ping :: pingListOf t else pingListOf t

/-- The sample `AnalyticsManager.log_ping_data` builds: low/avg/high over
the positive tracked pings, all three falling back to the bare server
ping when that list is empty. -/
def mkPingSample (now : Int) (server_ping : ℚ) (cur : List (String × TrackInfo)) : PingSample :=
  match pingListOf cur with
  | [] => ⟨now, server_ping, server_ping, server_ping, server_ping⟩
  | h :: t =>
      let low : ℚ := ((h :: t).foldl Min.min h : Int)
      let high : ℚ := ((h :: t).foldl Max.max h : Int)
      let avg : ℚ := ((h :: t).foldl (· + ·) 0 : Int) / ((h :: t).length : ℚ)
      ⟨now, low, avg, high, server_ping⟩

/-- `AnalyticsManager.log_ping_data`: appends one sample. -/
def log_ping_data (now : Int) (server_ping : ℚ) (s : Sys) : Sys :=
  let smp := mkPingSample now server_ping s.current_players
  { s with db := db_log_ping_data now smp.low smp.avg smp.high server_ping s.db }

/-! ### AnalyticsManager: session duration, reaper -/

/-- `AnalyticsManager._get_current_session_duration`. -/
def get_current_session_duration (now : Int) (p : String) (s : Sys) : Int :=
  match dlookup p s.session_start_times with
  | some t0 => now - t0
  | none => 0

/-- Tracked names whose `last_update` is more than 2 minutes (120 s)
before `now` — the reaper's staleness test is a strict `>`. -/
def offlineNames (now : Int) : List (String × TrackInfo) → List String
  | [] => []
  | kv :: t => if 120 < now - kv.2.last_update then kv.1 :: offlineNames now t else offlineNames now t

/-- Body of the reaper loop for one stale name: log a `"leave"` with
reason `"timeout"` and `session_duration = now - start` (when a session
start is tracked) and drop the tracking entries. -/
def reapStep (now : Int) (s : Sys) (p : String) : Sys :=
  let s1 :=
    match dlookup p s.session_start_times with
    | some t0 =>
        { s with db := log_event now "leave" p
                         ({ session_duration := some (now - t0), reason := some "timeout" }) s.db,
                 session_start_times := derase p s.session_start_times }
    | none => s
  { s1 with current_players := derase p s1.current_players }

/-- `AnalyticsManager.clean_offline_players`. -/
def clean_offline_players (now : Int) (s : Sys) : Sys :=
  (offlineNames now s.current_players).foldl (reapStep now) s

/-! ### NotificationManager.check_player_changes -/

/-- Names the notifier extracts: any truthy `name` (no sentinel check). -/
def truthyNamesRaw : List PEntry → List String
  | [] => []
  | e :: t => if e.name = "" then truthyNamesRaw t else e.name :: truthyNamesRaw t

/-- Keep the first occurrence of each element (Python `set` built from a
comprehension: membership semantics). -/
def dedupFirst : List String → List String
  | [] => []
  | h :: t => h :: (dedupFirst t).filter (fun x => decide ¬(x = h))

/-- The notifier's `current_players` set. -/
def truthyNames (players : List PEntry) : List String := dedupFirst (truthyNamesRaw players)

/-- First roster entry with the given name. -/
def findByName (p : String) : List PEntry → Option PEntry
  | [] => none
  | e :: t => if e.name = p then some e else findByName p t

/-- `NotificationManager._handle_player_join`: logs a `"join"` event with
the entry's ping/identifiers (the Discord embed is not modelled). -/
def handle_player_join (now : Int) (p : String) (players : List PEntry) (s : Sys) : Sys :=
  match findByName p players with
  | none => s
  | some e =>
      { s with db := log_event now "join" p
                       ({ ping := some e.ping, identifiers := some e.identifiers }) s.db }

/-- `NotificationManager._handle_player_leave`: logs a `"leave"` event
whose duration comes from the notifier's own join-time map (0 if absent). -/
def handle_player_leave (now : Int) (p : String) (s : Sys) : Sys :=
  let dur : Int :=
    match dlookup p s.player_join_times with
    | some t => now - t
    | none => 0
  { s with db := log_event now "leave" p ({ session_duration := some dur }) s.db }

/-- Elements of the first list not in the second. -/
def setDiff (l avoid : List String) : List String :=
  l.filter (fun p => decide ¬(p ∈ avoid))

/-- `NotificationManager.check_player_changes`. -/
def check_player_changes (now : Int) (players : List PEntry) (s : Sys) : Sys :=
  let current := truthyNames players
  let joined := setDiff current s.previous_players
  let leftP := setDiff s.previous_players current
  let s1 := joined.foldl (fun s p => handle_player_join now p players s) s
  let s2 := leftP.foldl (fun s p => handle_player_leave now p s) s1
  let s3 := { s2 with previous_players := current }
  let jt1 := current.foldl
    (fun m p => if (dlookup p m).isSome then m else dinsert p now m) s3.player_join_times
  let jt2 := leftP.foldl (fun m p => derase p m) jt1
  { s3 with player_join_times := jt2 }

/-! ### MotionlifeBot.update_server_status (one poll tick) -/

/-- One poll tick.  On an online snapshot with a non-empty roster it runs
`update_player_data`, `log_ping_data` (with the snapshot's server ping)
and `check_player_changes`, in that order; with an empty roster all three
are skipped.  An offline or failed snapshot only flips the online flag —
analytics state is untouched.  (Discord presence/status messages are not
modelled.) -/
def update_server_status (now : Int) (sd : Option ServerData) (s : Sys) : Sys :=
  match sd with
  | some d =>
      if d.online then
        let s1 :=
          if d.players = [] then s
          else
            let sa := update_player_data now d.players s
            let sb := log_ping_data now d.ping sa
            check_player_changes now d.players sb
        { s1 with last_server_online := true }
      else { s with last_server_online := false }
  | none => { s with last_server_online := false }

/-! ### FiveMAPI.get_players roster cleaning -/

/-- Python `str.strip()`: drop leading and trailing whitespace
(modelled on the character list so that it evaluates in the kernel). -/
def pyStrip (s : String) : String :=
  ⟨((s.data.dropWhile Char.isWhitespace).reverse.dropWhile Char.isWhitespace).reverse⟩

/-- Python `str.lower()` (ASCII case folding, which covers the sentinel
comparisons the source makes). -/
def pyLower (s : String) : String := ⟨s.data.map Char.toLower⟩

/-- The name filter of `FiveMAPI.get_players`: after `strip()`, drop
falsy names and (case-insensitively) `unknown` / `null`. -/
def sentinelName (n : String) : Prop :=
  pyStrip n = "" ∨ pyLower (pyStrip n) = "unknown" ∨ pyLower (pyStrip n) = "" ∨
    pyLower (pyStrip n) = "null"

instance (n : String) : Decidable (sentinelName n) := by
  unfold sentinelName
  infer_instance

/-- `FiveMAPI.get_players` cleaning: keep non-sentinel entries, with the
stripped name and defaulted job/role. -/
def get_players_parse : List RawPlayer → List PEntry
  | [] => []
  | r :: t =>
      if sentinelName r.name then get_players_parse t
      else { name := pyStrip r.name, ping := r.ping, identifiers := r.identifiers,
             job := "civilian", role := "civilian" } :: get_players_parse t

/-! ### DatabaseManager.get_ping_stats -/

/-- Samples whose timestamp is `≥ cutoff` (the `$gte` match stage). -/
def windowSamples (cutoff : Int) : List PingSample → List PingSample
  | [] => []
  | smp :: t => if cutoff ≤ smp.timestamp then smp :: windowSamples cutoff t else windowSamples cutoff t

def listSumQ (l : List ℚ) : ℚ := l.foldl (· + ·) 0

/-- Python `round(q, 1)`: round half to even at one decimal. -/
def pyRound1 (q : ℚ) : ℚ :=
  let x := 10 * q
  let f : ℤ := Int.floor x
  let r : ℚ := x - f
  let n : ℤ :=
    if r < 1 / 2 then f
    else if 1 / 2 < r then f + 1
    else if f % 2 = 0 then f else f + 1
  (n : ℚ) / 10

/-- Result dict of `DatabaseManager.get_ping_stats`. -/
structure PingStatsResult where
  low : ℚ
  avg : ℚ
  high : ℚ
  min : ℚ
  max : ℚ
deriving DecidableEq

/-- `DatabaseManager.get_ping_stats`: `None` when the window holds no
sample, otherwise the per-field arithmetic means (and min/max), rounded
to one decimal. -/
def get_ping_stats (now : Int) (hours : Int) (db : DB) : Option PingStatsResult :=
  let cutoff := now - hours * 3600
  match windowSamples cutoff db.ping_logs with
  | [] => none
  | h :: t =>
      let w := h :: t
      let n : ℚ := (w.length : ℚ)
      some { low := pyRound1 (listSumQ (w.map (·.low)) / n),
             avg := pyRound1 (listSumQ (w.map (·.avg)) / n),
             high := pyRound1 (listSumQ (w.map (·.high)) / n),
             min := pyRound1 ((w.map (·.low)).foldl Min.min h.low),
             max := pyRound1 ((w.map (·.high)).foldl Max.max h.high) }

/-! ### AnalyticsManager._calculate_peak_players -/

/-- Events with timestamp `≥ cutoff`. -/
def windowEvents (cutoff : Int) : List Event → List Event
  | [] => []
  | e :: t => if cutoff ≤ e.time then e :: windowEvents cutoff t else windowEvents cutoff t

/-- Stable insertion into a time-sorted list (equal times keep order). -/
def insertSorted (e : Event) : List Event → List Event
  | [] => [e]
  | h :: t => if h.time ≤ e.time then h :: insertSorted e t else e :: h :: t

/-- Stable sort by timestamp (Python's `list.sort` is stable). -/
def sortByTime (l : List Event) : List Event := l.foldl (fun acc e => insertSorted e acc) []

/-- Python `set.add`. -/
def setInsert (x : String) (l : List String) : List String := if x ∈ l then l else l ++ [x]

/-- Python `set.discard`. -/
def setDiscard (x : String) (l : List String) : List String := l.filter (fun y => decide ¬(y = x))

/-- `AnalyticsManager._calculate_peak_players`, abstracted over the
fetched event list and the live tracked count: filter to the window, and
if nothing is left return the live count, else replay chronologically
(join = insert, leave = discard) tracking the maximum set size. -/
def calculate_peak_players (cutoff : Int) (events : List Event) (liveCount : Nat) : Nat :=
  match windowEvents cutoff events with
  | [] => liveCount
  | e :: t =>
      let step := fun (acc : List String × Nat) (ev : Event) =>
        let cur :=
          if ev.etype = "join" then setInsert ev.player acc.1
          else if ev.etype = "leave" then setDiscard ev.player acc.1
          else acc.1
        (cur, Nat.max acc.2 cur.length)
      ((sortByTime (e :: t)).foldl step ([], 0)).2

/-! ### Projections used by the theorems -/

/-- Stored cumulative playtime of a player (0 when no record exists). -/
def playtimeOf (p : String) (db : DB) : Int :=
  ((dlookup p db.players).map (·.playtime)).getD 0

/-- Stored session count of a player (0 when no record exists). -/
def sessionsOf (p : String) (db : DB) : Nat :=
  ((dlookup p db.players).map (·.totalSessions)).getD 0

/-- The logged events concerning a player, oldest first. -/
def eventsFor (p : String) (db : DB) : List Event :=
  db.event_logs.filter (fun e => decide (e.player = p))

/-- Analytics ticks at the exact nominal 30-second cadence:
`runTrace t0 R s n` is the state after processing rosters
`R 0, …, R (n-1)` at times `t0, t0 + 30, …`. -/
def runTrace (t0 : Int) (R : Nat → List PEntry) (s : Sys) : Nat → Sys
  | 0 => s
  | n + 1 => update_player_data (t0 + 30 * n) (R n) (runTrace t0 R s n)

/-- The duration the notifier reports for a leaver. -/
def notifDur (now : Int) (p : String) (s : Sys) : Int :=
  match dlookup p s.player_join_times with
  | some t => now - t
  | none => 0

/-- Number of roster entries carrying a given name. -/
def countNamed (p : String) (players : List PEntry) : Nat :=
  players.countP (fun e => e.name == p)

/-- Empty database. -/
def dbEmpty : DB := ⟨[], [], []⟩

/-- Fresh system state (bot start-up). -/
def sysEmpty : Sys := ⟨dbEmpty, [], [], [], [], false⟩

/-- Roster entry with default job/role, as `get_players` produces. -/
def mkPE (n : String) (pg : Int) : PEntry := ⟨n, pg, [], "civilian", "civilian"⟩

/-- A state with three tracked players (used to instantiate theorems). -/
def sys3 : Sys :=
  ⟨dbEmpty,
   [("a", ⟨0, 1, [], "civilian", "civilian"⟩), ("b", ⟨0, 2, [], "civilian", "civilian"⟩),
    ("c", ⟨0, 3, [], "civilian", "civilian"⟩)],
   [("a", 0), ("b", 0), ("c", 0)],
   ["a", "b", "c"],
   [("a", 0), ("b", 0), ("c", 0)],
   true⟩

/-- Time of the i-th poll tick at the nominal 30-second cadence. -/
def tickTime (t0 : Int) (i : Nat) : Int := t0 + 30 * i

/-- Roster family instantiating the C1 trace: player `q` always on;
player `p` present at ticks 1, 2, 3 only. -/
def C1roster (i : Nat) : List PEntry :=
  if i = 0 then [mkPE "q" 1]
  else if i ≤ 3 then [mkPE "p" 5, mkPE "q" 1]
  else [mkPE "q" 1]

/-! ### Dictionary lemmas -/

theorem dlookup_dinsert_self {α : Type} (k : String) (v : α) (l : List (String × α)) :
    dlookup k (dinsert k v l) = some v := by
  induction l with
  | nil => simp [dinsert, dlookup]
  | cons h t ih =>
      obtain ⟨k', v'⟩ := h
      by_cases hk : k' = k <;> simp [dinsert, dlookup, hk, ih]

theorem dlookup_dinsert_ne {α : Type} {k q : String} (h : k ≠ q) (v : α) (l : List (String × α)) :
    dlookup q (dinsert k v l) = dlookup q l := by
  induction l with
  | nil => simp [dinsert, dlookup, h]
  | cons hd t ih =>
      obtain ⟨k', v'⟩ := hd
      by_cases hk : k' = k
      · subst hk; simp [dinsert, dlookup, h]
      · simp [dinsert, dlookup, hk, ih]

theorem dlookup_derase_ne {α : Type} {k q : String} (h : k ≠ q) (l : List (String × α)) :
    dlookup q (derase k l) = dlookup q l := by
  induction l with
  | nil => simp [derase]
  | cons hd t ih =>
      obtain ⟨k', v'⟩ := hd
      by_cases hk : k' = k
      · subst hk; simp [derase, dlookup, h]
      · simp [derase, dlookup, hk, ih]

theorem dlookup_eq_none_iff {α : Type} (k : String) (l : List (String × α)) :
    dlookup k l = none ↔ k ∉ dkeys l := by
  induction l with
  | nil => simp [dlookup, dkeys]
  | cons hd t ih =>
      obtain ⟨k', v'⟩ := hd
      by_cases hk : k' = k
      · simp [dlookup, dkeys, hk, ih]
      · simp [dlookup, dkeys, hk, ih]
        tauto

theorem mem_dkeys_of_dlookup {α : Type} {k : String} {l : List (String × α)} {v : α}
    (h : dlookup k l = some v) : k ∈ dkeys l := by
  by_contra hmem
  rw [← dlookup_eq_none_iff] at hmem
  rw [h] at hmem
  exact Option.noConfusion hmem

theorem dkeys_derase {α : Type} (k : String) (l : List (String × α)) :
    dkeys (derase k l) = (dkeys l).erase k := by
  induction l with
  | nil => simp [derase, dkeys]
  | cons hd t ih =>
      obtain ⟨k', v'⟩ := hd
      by_cases hk : k' = k
      · subst hk; simp [derase, dkeys]
      · simp only [derase, if_neg hk, dkeys, List.map_cons, List.erase_cons, beq_iff_eq, hk,
          if_false]
        exact congrArg (k' :: ·) ih

theorem dkeys_dinsert {α : Type} (k : String) (v : α) (l : List (String × α)) :
    dkeys (dinsert k v l) = if k ∈ dkeys l then dkeys l else dkeys l ++ [k] := by
  induction l with
  | nil => simp [dinsert, dkeys]
  | cons hd t ih =>
      obtain ⟨k', v'⟩ := hd
      by_cases hk : k' = k
      · subst hk; simp [dinsert, dkeys]
      · have hmemiff : (k ∈ dkeys ((k', v') :: t)) ↔ k ∈ dkeys t := by
          simp [dkeys, Ne.symm hk]
        by_cases hm : k ∈ dkeys t
        · rw [if_pos (hmemiff.mpr hm)]
          simp only [dinsert, if_neg hk, dkeys, List.map_cons]
          rw [show List.map Prod.fst (dinsert k v t) = dkeys (dinsert k v t) from rfl, ih,
            if_pos hm]
          rfl
        · rw [if_neg (fun hh => hm (hmemiff.mp hh))]
          simp only [dinsert, if_neg hk, dkeys, List.map_cons]
          rw [show List.map Prod.fst (dinsert k v t) = dkeys (dinsert k v t) from rfl, ih,
            if_neg hm]
          rfl

theorem nodup_dkeys_dinsert {α : Type} (k : String) (v : α) {l : List (String × α)}
    (h : (dkeys l).Nodup) : (dkeys (dinsert k v l)).Nodup := by
  rw [dkeys_dinsert]
  by_cases hm : k ∈ dkeys l
  · simpa [hm] using h
  · simp only [hm, if_false]
    simpa [List.nodup_append, hm] using h

theorem nodup_dkeys_derase {α : Type} (k : String) {l : List (String × α)}
    (h : (dkeys l).Nodup) : (dkeys (derase k l)).Nodup := by
  rw [dkeys_derase]; exact h.erase k

theorem dlookup_derase_self {α : Type} (k : String) {l : List (String × α)}
    (h : (dkeys l).Nodup) : dlookup k (derase k l) = none := by
  induction l with
  | nil => simp [derase, dlookup]
  | cons hd t ih =>
      obtain ⟨k', v'⟩ := hd
      simp only [dkeys, List.map_cons, List.nodup_cons] at h
      by_cases hk : k' = k
      · subst hk
        simp only [derase, if_pos rfl]
        rw [dlookup_eq_none_iff]
        exact h.1
      · simp [derase, hk, dlookup, ih h.2]

/-! ### Generic fold helpers -/

theorem foldl_preserve {σ α : Type} (step : σ → α → σ) (P : σ → Prop) :
    ∀ (l : List α) (s : σ), (∀ s a, a ∈ l → P s → P (step s a)) → P s → P (l.foldl step s)
  | [], s, _, hP => hP
  | a :: t, s, hstep, hP =>
      foldl_preserve step P t (step s a) (fun s' b hb => hstep s' b (List.mem_cons_of_mem a hb))
        (hstep s a (List.mem_cons_self a t) hP)

theorem foldl_once {σ α : Type} (step : σ → α → σ) (Q R : σ → Prop) (isP : α → Bool) :
    ∀ (l : List α),
    (∀ s a, a ∈ l → isP a = false → Q s → Q (step s a)) →
    (∀ s a, a ∈ l → isP a = false → R s → R (step s a)) →
    (∀ s a, a ∈ l → isP a = true → Q s → R (step s a)) →
    ∀ (s : σ), l.countP isP = 1 → Q s → R (l.foldl step s) := by
  intro l
  induction l with
  | nil =>
      intro _ _ _ s h
      rw [List.countP_nil] at h
      exact (Nat.zero_ne_one h).elim
  | cons a t ih =>
      intro hQ hR hQR s hcount hQs
      rw [List.countP_cons] at hcount
      cases ha : isP a with
      | true =>
          have ht : t.countP isP = 0 := by rw [if_pos ha] at hcount; omega
          have hall : ∀ b ∈ t, ¬ (isP b = true) := List.countP_eq_zero.mp ht
          simp only [List.foldl_cons]
          exact foldl_preserve step R t (step s a)
            (fun s' b hb => hR s' b (List.mem_cons_of_mem a hb) (by simpa using hall b hb))
            (hQR s a (List.mem_cons_self a t) ha hQs)
      | false =>
          have ht : t.countP isP = 1 := by rw [if_neg (by simp [ha])] at hcount; omega
          simp only [List.foldl_cons]
          exact ih (fun s' b hb => hQ s' b (List.mem_cons_of_mem a hb))
            (fun s' b hb => hR s' b (List.mem_cons_of_mem a hb))
            (fun s' b hb => hQR s' b (List.mem_cons_of_mem a hb))
            (step s a) ht (hQ s a (List.mem_cons_self a t) ha hQs)

/-! ### Per-player projections and key invariants -/

/-- `current_players[p]`. -/
def trackOf (p : String) (s : Sys) : Option TrackInfo := dlookup p s.current_players

/-- `session_start_times[p]`. -/
def startOf (p : String) (s : Sys) : Option Int := dlookup p s.session_start_times

/-- The persisted record of `p`. -/
def recOf (p : String) (s : Sys) : Option PlayerRec := dlookup p s.db.players

/-- The logged events concerning `p`. -/
def evOf (p : String) (s : Sys) : List Event := eventsFor p s.db

/-- Key uniqueness of the two tracking dicts (Python dicts cannot hold a
key twice). -/
def ndInv (s : Sys) : Prop :=
  (dkeys s.current_players).Nodup ∧ (dkeys s.session_start_times).Nodup

/-! ### Database-primitive lemmas -/

theorem increment_players_ne {q p : String} (h : q ≠ p) (db : DB) :
    dlookup p (increment_player_sessions q db).players = dlookup p db.players := by
  unfold increment_player_sessions
  cases hq : dlookup q db.players with
  | none => rfl
  | some r => simp [dlookup_dinsert_ne h]

theorem increment_event_logs (q : String) (db : DB) :
    (increment_player_sessions q db).event_logs = db.event_logs := by
  unfold increment_player_sessions
  cases hq : dlookup q db.players <;> rfl

theorem increment_ping_logs (q : String) (db : DB) :
    (increment_player_sessions q db).ping_logs = db.ping_logs := by
  unfold increment_player_sessions
  cases hq : dlookup q db.players <;> rfl

theorem log_event_event_logs (now : Int) (etype q : String) (details : EventDetails) (db : DB) :
    (log_event now etype q details db).event_logs = db.event_logs ++ [⟨now, etype, q, details⟩] := by
  unfold log_event
  by_cases he : etype = "join" <;> simp [he, increment_event_logs]

theorem log_event_ping_logs (now : Int) (etype q : String) (details : EventDetails) (db : DB) :
    (log_event now etype q details db).ping_logs = db.ping_logs := by
  unfold log_event
  by_cases he : etype = "join" <;> simp [he, increment_ping_logs]

theorem log_event_players_ne {q p : String} (h : q ≠ p) (now : Int) (etype : String)
    (details : EventDetails) (db : DB) :
    dlookup p (log_event now etype q details db).players = dlookup p db.players := by
  unfold log_event
  by_cases he : etype = "join" <;> simp [he, increment_players_ne h]

theorem log_event_players_not_join {etype : String} (h : etype ≠ "join") (now : Int) (q p : String)
    (details : EventDetails) (db : DB) :
    dlookup p (log_event now etype q details db).players = dlookup p db.players := by
  unfold log_event
  simp [h]

theorem log_event_players_join_some {p : String} {db : DB} {r : PlayerRec}
    (h : dlookup p db.players = some r) (now : Int) (details : EventDetails) :
    dlookup p (log_event now "join" p details db).players
      = some ({ r with totalSessions := r.totalSessions + 1 }) := by
  unfold log_event increment_player_sessions
  simp [h, dlookup_dinsert_self]

theorem log_event_players_join_none {p : String} {db : DB}
    (h : dlookup p db.players = none) (now : Int) (details : EventDetails) :
    dlookup p (log_event now "join" p details db).players = none := by
  unfold log_event increment_player_sessions
  simp [h]

theorem upsert_event_logs (now : Int) (name : String) (ids : List String) (ping session_time : Int)
    (job role : String) (db : DB) :
    (upsert_player now name ids ping session_time job role db).event_logs = db.event_logs := by
  unfold upsert_player
  cases hq : dlookup name db.players <;> rfl

theorem upsert_ping_logs (now : Int) (name : String) (ids : List String) (ping session_time : Int)
    (job role : String) (db : DB) :
    (upsert_player now name ids ping session_time job role db).ping_logs = db.ping_logs := by
  unfold upsert_player
  cases hq : dlookup name db.players <;> rfl

theorem upsert_players_ne {q p : String} (h : q ≠ p) (now : Int) (ids : List String)
    (ping session_time : Int) (job role : String) (db : DB) :
    dlookup p (upsert_player now q ids ping session_time job role db).players
      = dlookup p db.players := by
  unfold upsert_player
  cases hq : dlookup q db.players <;> simp [dlookup_dinsert_ne h]

theorem upsert_players_self_some {p : String} {db : DB} {r : PlayerRec}
    (h : dlookup p db.players = some r) (now : Int) (ids : List String)
    (ping session_time : Int) (job role : String) :
    dlookup p (upsert_player now p ids ping session_time job role db).players
      = some ({ r with identifiers := ids, lastSeen := now, job := job, role := role,
                       ping := ping, playtime := r.playtime + session_time }) := by
  unfold upsert_player
  simp [h, dlookup_dinsert_self]

theorem upsert_players_self_none {p : String} {db : DB}
    (h : dlookup p db.players = none) (now : Int) (ids : List String)
    (ping session_time : Int) (job role : String) :
    dlookup p (upsert_player now p ids ping session_time job role db).players
      = some ⟨ids, now, job, role, ping, session_time, now, 0⟩ := by
  unfold upsert_player
  simp [h, dlookup_dinsert_self]

theorem eventsFor_of_event_logs_eq {p : String} {db db' : DB}
    (h : db'.event_logs = db.event_logs) : eventsFor p db' = eventsFor p db := by
  unfold eventsFor
  rw [h]

theorem eventsFor_log_event_ne {q p : String} (h : q ≠ p) (now : Int) (etype : String)
    (details : EventDetails) (db : DB) :
    eventsFor p (log_event now etype q details db) = eventsFor p db := by
  unfold eventsFor
  rw [log_event_event_logs]
  simp [List.filter_append, h]

theorem eventsFor_log_event_self (p : String) (now : Int) (etype : String)
    (details : EventDetails) (db : DB) :
    eventsFor p (log_event now etype p details db)
      = eventsFor p db ++ [⟨now, etype, p, details⟩] := by
  unfold eventsFor
  rw [log_event_event_logs]
  simp [List.filter_append]

/-! ### processEntry: frame and effect lemmas -/

theorem processEntry_skip {e : PEntry} (h : e.name = "" ∨ e.name = "Unknown") (now : Int) (s : Sys) :
    processEntry now s e = s := by
  unfold processEntry
  simp [h]

theorem processEntry_notif (now : Int) (s : Sys) (e : PEntry) :
    (processEntry now s e).previous_players = s.previous_players ∧
    (processEntry now s e).player_join_times = s.player_join_times := by
  unfold processEntry
  by_cases hsk : e.name = "" ∨ e.name = "Unknown"
  · simp [hsk]
  · by_cases hnew : (dlookup e.name s.current_players).isNone = true <;>
      simp [hsk, hnew]

theorem processEntry_ping_logs (now : Int) (s : Sys) (e : PEntry) :
    (processEntry now s e).db.ping_logs = s.db.ping_logs := by
  unfold processEntry
  by_cases hsk : e.name = "" ∨ e.name = "Unknown"
  · simp [hsk]
  · by_cases hnew : (dlookup e.name s.current_players).isNone = true <;>
      simp [hsk, hnew, upsert_ping_logs, log_event_ping_logs]

theorem processEntry_frame {e : PEntry} {p : String} (h : e.name ≠ p) (now : Int) (s : Sys) :
    trackOf p (processEntry now s e) = trackOf p s ∧
    startOf p (processEntry now s e) = startOf p s ∧
    recOf p (processEntry now s e) = recOf p s ∧
    evOf p (processEntry now s e) = evOf p s := by
  unfold processEntry trackOf startOf recOf evOf
  by_cases hsk : e.name = "" ∨ e.name = "Unknown"
  · simp [hsk]
  · by_cases hnew : (dlookup e.name s.current_players).isNone = true <;>
      simp [hsk, hnew, dlookup_dinsert_ne h, upsert_players_ne h, log_event_players_ne h,
        eventsFor, upsert_event_logs, log_event_event_logs, List.filter_append, h]

theorem processEntry_new {e : PEntry} {p : String} (hname : e.name = p)
    (hsk : ¬(e.name = "" ∨ e.name = "Unknown")) (htrack : trackOf p s = none) (now : Int) :
    trackOf p (processEntry now s e) = some ⟨now, e.ping, e.identifiers, e.job, e.role⟩ ∧
    startOf p (processEntry now s e) = some now ∧
    evOf p (processEntry now s e)
      = evOf p s ++ [⟨now, "join", p, ⟨some e.ping, some e.identifiers, none, none⟩⟩] := by
  unfold trackOf at htrack
  unfold processEntry trackOf startOf evOf
  rw [hname] at hsk ⊢
  simp only [if_neg hsk, htrack, Option.isNone_none, if_pos rfl, if_true]
  refine ⟨?_, ?_, ?_⟩
  · simp [dlookup_dinsert_self, upsert_players_ne, htrack]
  · simp [dlookup_dinsert_self]
  · simp [eventsFor, upsert_event_logs, log_event_event_logs, List.filter_append]

theorem processEntry_new_rec_some {e : PEntry} {p : String} {r : PlayerRec} (hname : e.name = p)
    (hsk : ¬(e.name = "" ∨ e.name = "Unknown")) (htrack : trackOf p s = none)
    (hrec : recOf p s = some r) (now : Int) :
    recOf p (processEntry now s e)
      = some ({ r with identifiers := e.identifiers, lastSeen := now, job := e.job,
                       role := e.role, ping := e.ping,
                       playtime := r.playtime + 0,
                       totalSessions := r.totalSessions + 1 }) := by
  unfold trackOf at htrack
  unfold recOf at hrec
  unfold processEntry recOf
  rw [hname] at hsk ⊢
  simp only [if_neg hsk, htrack, Option.isNone_none, if_pos rfl, if_true]
  rw [upsert_players_self_some (log_event_players_join_some hrec now _) now]

theorem processEntry_new_rec_none {e : PEntry} {p : String} (hname : e.name = p)
    (hsk : ¬(e.name = "" ∨ e.name = "Unknown")) (htrack : trackOf p s = none)
    (hrec : recOf p s = none) (now : Int) :
    recOf p (processEntry now s e)
      = some ⟨e.identifiers, now, e.job, e.role, e.ping, 0, now, 0⟩ := by
  unfold trackOf at htrack
  unfold recOf at hrec
  unfold processEntry recOf
  rw [hname] at hsk ⊢
  simp only [if_neg hsk, htrack, Option.isNone_none, if_pos rfl, if_true]
  rw [upsert_players_self_none (log_event_players_join_none hrec now _) now]

theorem processEntry_cont {e : PEntry} {p : String} {info : TrackInfo} (hname : e.name = p)
    (hsk : ¬(e.name = "" ∨ e.name = "Unknown")) (htrack : trackOf p s = some info) (now : Int) :
    trackOf p (processEntry now s e) = some ⟨now, e.ping, e.identifiers, e.job, e.role⟩ ∧
    startOf p (processEntry now s e) = startOf p s ∧
    evOf p (processEntry now s e) = evOf p s := by
  unfold trackOf at htrack
  unfold processEntry trackOf startOf evOf
  rw [hname] at hsk ⊢
  simp only [if_neg hsk, htrack, Option.isNone_some, if_neg, if_false]
  refine ⟨?_, ?_, ?_⟩
  · simp [dlookup_dinsert_self]
  · simp
  · simp [eventsFor, upsert_event_logs]

theorem processEntry_cont_rec_some {e : PEntry} {p : String} {info : TrackInfo} {r : PlayerRec}
    (hname : e.name = p) (hsk : ¬(e.name = "" ∨ e.name = "Unknown"))
    (htrack : trackOf p s = some info) (hrec : recOf p s = some r) (now : Int) :
    recOf p (processEntry now s e)
      = some ({ r with identifiers := e.identifiers, lastSeen := now, job := e.job,
                       role := e.role, ping := e.ping,
                       playtime := r.playtime + 30 }) := by
  unfold trackOf at htrack
  unfold recOf at hrec
  unfold processEntry recOf
  rw [hname] at hsk ⊢
  simp [if_neg hsk, htrack, upsert_players_self_some hrec now]

theorem processEntry_cont_rec_none {e : PEntry} {p : String} {info : TrackInfo}
    (hname : e.name = p) (hsk : ¬(e.name = "" ∨ e.name = "Unknown"))
    (htrack : trackOf p s = some info) (hrec : recOf p s = none) (now : Int) :
    recOf p (processEntry now s e)
      = some ⟨e.identifiers, now, e.job, e.role, e.ping, 30, now, 0⟩ := by
  unfold trackOf at htrack
  unfold recOf at hrec
  unfold processEntry recOf
  rw [hname] at hsk ⊢
  simp [if_neg hsk, htrack, upsert_players_self_none hrec now]

theorem ndInv_processEntry (now : Int) (s : Sys) (e : PEntry) (h : ndInv s) :
    ndInv (processEntry now s e) := by
  unfold processEntry
  by_cases hsk : e.name = "" ∨ e.name = "Unknown"
  · simpa [hsk] using h
  · by_cases hnew : (dlookup e.name s.current_players).isNone = true <;>
      · simp only [ndInv, hsk, hnew, if_false, if_true, ite_false, ite_true] at h ⊢
        exact ⟨nodup_dkeys_dinsert _ _ h.1, by first
          | exact nodup_dkeys_dinsert _ _ h.2
          | exact h.2⟩

/-! ### processLeave: frame and effect lemmas -/

theorem processLeave_notif (now : Int) (s : Sys) (q : String) :
    (processLeave now s q).previous_players = s.previous_players ∧
    (processLeave now s q).player_join_times = s.player_join_times := by
  unfold processLeave
  cases hst : dlookup q s.session_start_times with
  | none => simp
  | some t0 => by_cases hrem : 0 < (now - t0) % 30 <;> simp [hrem]

theorem processLeave_ping_logs (now : Int) (s : Sys) (q : String) :
    (processLeave now s q).db.ping_logs = s.db.ping_logs := by
  unfold processLeave
  cases hst : dlookup q s.session_start_times with
  | none => simp
  | some t0 =>
      by_cases hrem : 0 < (now - t0) % 30 <;>
        simp [hrem, upsert_ping_logs, log_event_ping_logs]

theorem processLeave_frame {q p : String} (h : q ≠ p) (now : Int) (s : Sys) :
    trackOf p (processLeave now s q) = trackOf p s ∧
    startOf p (processLeave now s q) = startOf p s ∧
    recOf p (processLeave now s q) = recOf p s ∧
    evOf p (processLeave now s q) = evOf p s := by
  unfold processLeave trackOf startOf recOf evOf
  cases hst : dlookup q s.session_start_times with
  | none => simp [dlookup_derase_ne h]
  | some t0 =>
      by_cases hrem : 0 < (now - t0) % 30 <;>
        simp [hrem, dlookup_derase_ne h, upsert_players_ne h, log_event_players_ne h,
          eventsFor, upsert_event_logs, log_event_event_logs, List.filter_append, h]

theorem processLeave_self {p : String} {t0 : Int} (hst : startOf p s = some t0)
    (hnd : ndInv s) (now : Int) :
    trackOf p (processLeave now s p) = none ∧
    startOf p (processLeave now s p) = none ∧
    evOf p (processLeave now s p)
      = evOf p s ++ [⟨now, "leave", p, ⟨none, none, some (now - t0), none⟩⟩] ∧
    playtimeOf p (processLeave now s p).db = playtimeOf p s.db + (now - t0) % 30 ∧
    sessionsOf p (processLeave now s p).db = sessionsOf p s.db := by
  unfold startOf at hst
  have hne : ("leave" : String) ≠ "join" := by simp
  have hlog : dlookup p (log_event now "leave" p
      ⟨none, none, some (now - t0), none⟩ s.db).players = dlookup p s.db.players :=
    log_event_players_not_join hne now p p _ _
  unfold processLeave trackOf startOf evOf
  simp only [hst]
  by_cases hrem : 0 < (now - t0) % 30
  · simp only [if_pos hrem]
    refine ⟨?_, ?_, ?_, ?_, ?_⟩
    · simp [dlookup_derase_self p hnd.1]
    · simp [dlookup_derase_self p hnd.2]
    · simp [eventsFor, upsert_event_logs, log_event_event_logs, List.filter_append]
    · unfold playtimeOf
      cases hrec : dlookup p s.db.players with
      | none =>
          rw [upsert_players_self_none (hlog.trans hrec) now]
          simp
      | some r =>
          rw [upsert_players_self_some (hlog.trans hrec) now]
          simp
    · unfold sessionsOf
      cases hrec : dlookup p s.db.players with
      | none =>
          rw [upsert_players_self_none (hlog.trans hrec) now]
          simp
      | some r =>
          rw [upsert_players_self_some (hlog.trans hrec) now]
          simp
  · have hrem0 : (now - t0) % 30 = 0 := by omega
    simp only [if_neg hrem]
    refine ⟨?_, ?_, ?_, ?_, ?_⟩
    · simp [dlookup_derase_self p hnd.1]
    · simp [dlookup_derase_self p hnd.2]
    · simp [eventsFor, log_event_event_logs, List.filter_append]
    · unfold playtimeOf
      rw [show (log_event now "leave" p
          ⟨none, none, some (now - t0), none⟩ s.db).players
          = (log_event now "leave" p
              ⟨none, none, some (now - t0), none⟩ s.db).players from rfl]
      rw [hlog, hrem0]
      simp
    · unfold sessionsOf
      rw [hlog]

theorem ndInv_processLeave (now : Int) (s : Sys) (q : String) (h : ndInv s) :
    ndInv (processLeave now s q) := by
  unfold processLeave
  cases hst : dlookup q s.session_start_times with
  | none => exact ⟨nodup_dkeys_derase q h.1, h.2⟩
  | some t0 =>
      by_cases hrem : 0 < (now - t0) % 30 <;>
        · simp only [ndInv, hrem, if_pos, if_neg, ite_true, ite_false]
          exact ⟨nodup_dkeys_derase q h.1, nodup_dkeys_derase q h.2⟩

/-! ### reapStep: frame and effect lemmas -/

theorem reapStep_frame {q p : String} (h : q ≠ p) (now : Int) (s : Sys) :
    trackOf p (reapStep now s q) = trackOf p s ∧
    startOf p (reapStep now s q) = startOf p s ∧
    recOf p (reapStep now s q) = recOf p s ∧
    evOf p (reapStep now s q) = evOf p s := by
  unfold reapStep trackOf startOf recOf evOf
  cases hst : dlookup q s.session_start_times with
  | none => simp [dlookup_derase_ne h]
  | some t0 =>
      simp [dlookup_derase_ne h, log_event_players_ne h,
        eventsFor, log_event_event_logs, List.filter_append, h]

theorem reapStep_self {p : String} {t0 : Int} (hst : startOf p s = some t0)
    (hnd : ndInv s) (now : Int) :
    trackOf p (reapStep now s p) = none ∧
    startOf p (reapStep now s p) = none ∧
    recOf p (reapStep now s p) = recOf p s ∧
    evOf p (reapStep now s p)
      = evOf p s ++ [⟨now, "leave", p, ⟨none, none, some (now - t0), some "timeout"⟩⟩] := by
  unfold startOf at hst
  unfold reapStep trackOf startOf recOf evOf
  simp only [hst]
  refine ⟨?_, ?_, ?_, ?_⟩
  · simp [dlookup_derase_self p hnd.1]
  · simp [dlookup_derase_self p hnd.2]
  · simp [log_event_players_not_join (show "leave" ≠ "join" by simp) now p p]
  · simp [eventsFor, log_event_event_logs, List.filter_append]

theorem ndInv_reapStep (now : Int) (s : Sys) (q : String) (h : ndInv s) :
    ndInv (reapStep now s q) := by
  unfold reapStep
  cases hst : dlookup q s.session_start_times with
  | none => exact ⟨nodup_dkeys_derase q h.1, h.2⟩
  | some t0 => exact ⟨nodup_dkeys_derase q h.1, nodup_dkeys_derase q h.2⟩

/-! ### Notification handlers: frame and effect lemmas -/

theorem handle_join_maps (now : Int) (q : String) (players : List PEntry) (s : Sys) :
    (handle_player_join now q players s).current_players = s.current_players ∧
    (handle_player_join now q players s).session_start_times = s.session_start_times ∧
    (handle_player_join now q players s).previous_players = s.previous_players ∧
    (handle_player_join now q players s).player_join_times = s.player_join_times ∧
    (handle_player_join now q players s).db.ping_logs = s.db.ping_logs := by
  unfold handle_player_join
  cases hf : findByName q players with
  | none => simp
  | some e => simp [log_event_ping_logs]

theorem handle_join_frame {q p : String} (h : q ≠ p) (now : Int) (players : List PEntry)
    (s : Sys) :
    recOf p (handle_player_join now q players s) = recOf p s ∧
    evOf p (handle_player_join now q players s) = evOf p s := by
  unfold handle_player_join recOf evOf
  cases hf : findByName q players with
  | none => simp
  | some e => simp [log_event_players_ne h, eventsFor_log_event_ne h]

theorem handle_join_self {p : String} {e : PEntry} (hf : findByName p players = some e)
    (now : Int) (s : Sys) :
    evOf p (handle_player_join now p players s)
      = evOf p s ++ [⟨now, "join", p, ⟨some e.ping, some e.identifiers, none, none⟩⟩] := by
  unfold handle_player_join evOf
  simp [hf, eventsFor_log_event_self]

theorem handle_join_self_rec_some {p : String} {e : PEntry} {r : PlayerRec}
    (hf : findByName p players = some e) (hrec : recOf p s = some r) (now : Int) :
    recOf p (handle_player_join now p players s)
      = some ({ r with totalSessions := r.totalSessions + 1 }) := by
  unfold recOf at hrec
  unfold handle_player_join recOf
  simp only [hf]
  exact log_event_players_join_some hrec now _

theorem handle_leave_maps (now : Int) (q : String) (s : Sys) :
    (handle_player_leave now q s).current_players = s.current_players ∧
    (handle_player_leave now q s).session_start_times = s.session_start_times ∧
    (handle_player_leave now q s).previous_players = s.previous_players ∧
    (handle_player_leave now q s).player_join_times = s.player_join_times ∧
    (handle_player_leave now q s).db.ping_logs = s.db.ping_logs := by
  unfold handle_player_leave
  simp [log_event_ping_logs]

theorem handle_leave_frame {q p : String} (h : q ≠ p) (now : Int) (s : Sys) :
    recOf p (handle_player_leave now q s) = recOf p s ∧
    evOf p (handle_player_leave now q s) = evOf p s := by
  unfold handle_player_leave recOf evOf
  simp [log_event_players_ne h, eventsFor_log_event_ne h]

theorem handle_leave_self (p : String) (now : Int) (s : Sys) :
    recOf p (handle_player_leave now p s) = recOf p s ∧
    evOf p (handle_player_leave now p s)
      = evOf p s ++ [⟨now, "leave", p, ⟨none, none, some (notifDur now p s), none⟩⟩] := by
  unfold handle_player_leave recOf evOf notifDur
  have hne : ("leave" : String) ≠ "join" := by simp
  cases hjt : dlookup p s.player_join_times with
  | none =>
      exact ⟨log_event_players_not_join hne now p p _ _, by simp [hjt, eventsFor_log_event_self]⟩
  | some t =>
      exact ⟨log_event_players_not_join hne now p p _ _, by simp [hjt, eventsFor_log_event_self]⟩

/-! ### log_ping_data lemmas -/

theorem log_ping_data_maps (now : Int) (server_ping : ℚ) (s : Sys) :
    (log_ping_data now server_ping s).current_players = s.current_players ∧
    (log_ping_data now server_ping s).session_start_times = s.session_start_times ∧
    (log_ping_data now server_ping s).previous_players = s.previous_players ∧
    (log_ping_data now server_ping s).player_join_times = s.player_join_times ∧
    (log_ping_data now server_ping s).db.players = s.db.players ∧
    (log_ping_data now server_ping s).db.event_logs = s.db.event_logs := by
  unfold log_ping_data db_log_ping_data
  simp

theorem mkPingSample_now (now : Int) (sp : ℚ) (cur : List (String × TrackInfo)) :
    (mkPingSample now sp cur).timestamp = now ∧ (mkPingSample now sp cur).server_ping = sp := by
  unfold mkPingSample
  cases h : pingListOf cur <;> simp

theorem log_ping_data_ping_logs (now : Int) (server_ping : ℚ) (s : Sys) :
    (log_ping_data now server_ping s).db.ping_logs
      = s.db.ping_logs ++ [mkPingSample now server_ping s.current_players] := by
  obtain ⟨h1, h2⟩ := mkPingSample_now now server_ping s.current_players
  unfold log_ping_data db_log_ping_data
  cases hm : mkPingSample now server_ping s.current_players with
  | mk ts lo av hi sp =>
      rw [hm] at h1 h2
      simp only [] at h1 h2
      simp [hm, h1, h2]

/-! ### Claim C4 -/

/-- Claim C4: `upsert_player` adds the `session_time` increment to the
stored playtime instead of overwriting it — two upserts of 10 then 20
seconds on a fresh player leave `playtime = 30`, not 20. -/
theorem C4_upsert_adds_increments (name : String) (db : DB)
    (h : dlookup name db.players = none)
    (t1 t2 : Int) (ids1 ids2 : List String) (pg1 pg2 : Int) (j1 r1 j2 r2 : String) :
    playtimeOf name (upsert_player t2 name ids2 pg2 20 j2 r2
      (upsert_player t1 name ids1 pg1 10 j1 r1 db)) = 30 ∧ (30 : Int) ≠ 20 := by
  have h1 := upsert_players_self_none h t1 ids1 pg1 10 j1 r1
  have h2 := upsert_players_self_some h1 t2 ids2 pg2 20 j2 r2
  unfold playtimeOf
  rw [h2]
  norm_num

/-- Witness for C4 on the empty database. -/
theorem C4_witness :
    playtimeOf "alice" (upsert_player 5 "alice" [] 0 20 "c" "c"
      (upsert_player 1 "alice" [] 0 10 "c" "c" dbEmpty)) = 30 ∧ (30 : Int) ≠ 20 :=
  C4_upsert_adds_increments "alice" dbEmpty rfl 1 5 [] [] 0 0 "c" "c" "c" "c"

/-! ### Claim C3 -/

/-- Claim C3: an offline (or failed) snapshot leaves the analytics
tracking maps and the whole database untouched — no mass-leave, no
events; only the online flag changes. -/
theorem C3_offline_keeps_presence (now : Int) (sd : Option ServerData) (s : Sys)
    (h : sd = none ∨ ∃ d, sd = some d ∧ d.online = false) :
    (update_server_status now sd s).current_players = s.current_players ∧
    (update_server_status now sd s).session_start_times = s.session_start_times ∧
    (update_server_status now sd s).db = s.db := by
  rcases h with h | ⟨d, hsd, hon⟩
  · subst h
    unfold update_server_status
    simp
  · subst hsd
    unfold update_server_status
    simp [hon]

/-- Witness for C3: an offline snapshot after three tracked players keeps
the tracked-presence size at 3. -/
theorem C3_witness :
    ((update_server_status 100 (some ⟨false, 0, []⟩) sys3).current_players
        = sys3.current_players ∧
      (update_server_status 100 (some ⟨false, 0, []⟩) sys3).session_start_times
        = sys3.session_start_times ∧
      (update_server_status 100 (some ⟨false, 0, []⟩) sys3).db = sys3.db) ∧
    sys3.current_players.length = 3 :=
  ⟨C3_offline_keeps_presence 100 (some ⟨false, 0, []⟩) sys3 (Or.inr ⟨_, rfl, rfl⟩), by decide⟩

/-! ### Claim C10 -/

/-- Claim C10: an online snapshot with an empty roster skips
reconciliation, ping logging and notification diffing entirely — the
tick only sets the online flag; tracked presence, events and ping
samples are all unchanged. -/
theorem C10_empty_roster_tick_is_noop (now : Int) (d : ServerData) (s : Sys)
    (hon : d.online = true) (hemp : d.players = []) :
    update_server_status now (some d) s = { s with last_server_online := true } := by
  unfold update_server_status
  simp [hon, hemp]

/-- Witness for C10: with three tracked players who all departed, the
empty-roster tick changes nothing but the flag. -/
theorem C10_witness :
    update_server_status 100 (some ⟨true, 50, []⟩) sys3
      = { sys3 with last_server_online := true } :=
  C10_empty_roster_tick_is_noop 100 ⟨true, 50, []⟩ sys3 rfl rfl

/-! ### Claim C9 -/

/-- Claim C9 (amended): `get_ping_stats` returns `none` exactly when the
window holds zero samples (so "no data" is distinct from any zero-valued
struct), and otherwise a struct whose low/avg/high are the arithmetic
means of the per-sample low/avg/high fields rounded to one decimal. -/
theorem C9_ping_stats_none_iff_empty (now hours : Int) (db : DB) :
    (get_ping_stats now hours db = none
        ↔ windowSamples (now - hours * 3600) db.ping_logs = []) ∧
    (∀ h t, windowSamples (now - hours * 3600) db.ping_logs = h :: t →
        ∃ r, get_ping_stats now hours db = some r ∧
          r.low = pyRound1 (listSumQ ((h :: t).map (·.low)) / ((h :: t).length : ℚ)) ∧
          r.avg = pyRound1 (listSumQ ((h :: t).map (·.avg)) / ((h :: t).length : ℚ)) ∧
          r.high = pyRound1 (listSumQ ((h :: t).map (·.high)) / ((h :: t).length : ℚ))) := by
  cases hw : windowSamples (now - hours * 3600) db.ping_logs with
  | nil =>
      constructor
      · simp [get_ping_stats, hw]
      · intro h' t' heq
        exact absurd heq (by simp)
  | cons h t =>
      constructor
      · simp [get_ping_stats, hw]
      · intro h' t' heq
        injection heq with h1 h2
        subst h1
        subst h2
        refine ⟨⟨pyRound1 (listSumQ ((h :: t).map (·.low)) / ((h :: t).length : ℚ)),
                 pyRound1 (listSumQ ((h :: t).map (·.avg)) / ((h :: t).length : ℚ)),
                 pyRound1 (listSumQ ((h :: t).map (·.high)) / ((h :: t).length : ℚ)),
                 pyRound1 (((h :: t).map (·.low)).foldl Min.min h.low),
                 pyRound1 (((h :: t).map (·.high)).foldl Max.max h.high)⟩, ?_, rfl, rfl, rfl⟩
        simp [get_ping_stats, hw]

/-- Witness for C9: one in-window sample. -/
theorem C9_witness :
    (get_ping_stats 0 1 ⟨[], [⟨0, 1, 2, 3, 5⟩], []⟩ = none
        ↔ windowSamples (0 - 1 * 3600) (⟨[], [⟨0, 1, 2, 3, 5⟩], []⟩ : DB).ping_logs = []) ∧
    (∃ r, get_ping_stats 0 1 ⟨[], [⟨0, 1, 2, 3, 5⟩], []⟩ = some r ∧
      r.low = pyRound1 (listSumQ (([⟨0, 1, 2, 3, 5⟩] : List PingSample).map (·.low))
        / (([⟨0, 1, 2, 3, 5⟩] : List PingSample).length : ℚ)) ∧
      r.avg = pyRound1 (listSumQ (([⟨0, 1, 2, 3, 5⟩] : List PingSample).map (·.avg))
        / (([⟨0, 1, 2, 3, 5⟩] : List PingSample).length : ℚ)) ∧
      r.high = pyRound1 (listSumQ (([⟨0, 1, 2, 3, 5⟩] : List PingSample).map (·.high))
        / (([⟨0, 1, 2, 3, 5⟩] : List PingSample).length : ℚ))) := by
  obtain ⟨h1, h2⟩ := C9_ping_stats_none_iff_empty 0 1 ⟨[], [⟨0, 1, 2, 3, 5⟩], []⟩
  exact ⟨h1, h2 ⟨0, 1, 2, 3, 5⟩ [] (by decide)⟩

/-- Counterexample for C9 as stated: with one sample whose `avg` is 4/3,
the returned `avg` is the rounded 13/10, not the arithmetic mean 4/3. -/
theorem C9_counterexample :
    (get_ping_stats 0 1 ⟨[], [⟨0, 1, 4/3, 2, 5⟩], []⟩).map (fun r => r.avg)
        = some (13/10) ∧
    listSumQ (([⟨0, 1, 4/3, 2, 5⟩] : List PingSample).map (·.avg))
        / (([⟨0, 1, 4/3, 2, 5⟩] : List PingSample).length : ℚ) = 4/3 ∧
    (13/10 : ℚ) ≠ 4/3 := by
  have h13 : Int.floor ((10 : ℚ) * (4/3)) = 13 := by
    rw [Int.floor_eq_iff]
    norm_num
  refine ⟨?_, by norm_num [listSumQ], by norm_num⟩
  have : pyRound1 (4/3) = 13/10 := by norm_num [pyRound1, h13]
  rw [← this]
  simp [get_ping_stats, windowSamples, listSumQ]

/-! ### Claim C6 support -/

theorem update_player_data_ping_logs (now : Int) (players : List PEntry) (s : Sys) :
    (update_player_data now players s).db.ping_logs = s.db.ping_logs := by
  unfold update_player_data
  have h1 : ∀ (l : List PEntry) (st : Sys),
      (l.foldl (processEntry now) st).db.ping_logs = st.db.ping_logs := by
    intro l
    induction l with
    | nil => intro st; rfl
    | cons a t ih => intro st; rw [List.foldl_cons, ih, processEntry_ping_logs]
  have h2 : ∀ (l : List String) (st : Sys),
      (l.foldl (processLeave now) st).db.ping_logs = st.db.ping_logs := by
    intro l
    induction l with
    | nil => intro st; rfl
    | cons a t ih => intro st; rw [List.foldl_cons, ih, processLeave_ping_logs]
  rw [h2, h1]

theorem check_player_changes_ping_logs (now : Int) (players : List PEntry) (s : Sys) :
    (check_player_changes now players s).db.ping_logs = s.db.ping_logs := by
  unfold check_player_changes
  have h1 : ∀ (l : List String) (st : Sys),
      (l.foldl (fun st p => handle_player_join now p players st) st).db.ping_logs
        = st.db.ping_logs := by
    intro l
    induction l with
    | nil => intro st; rfl
    | cons a t ih =>
        intro st
        rw [List.foldl_cons, ih, (handle_join_maps now a players st).2.2.2.2]
  have h2 : ∀ (l : List String) (st : Sys),
      (l.foldl (fun st p => handle_player_leave now p st) st).db.ping_logs
        = st.db.ping_logs := by
    intro l
    induction l with
    | nil => intro st; rfl
    | cons a t ih =>
        intro st
        rw [List.foldl_cons, ih, (handle_leave_maps now a st).2.2.2.2]
  rw [h2, h1]

/-! ### Claim C6 -/

/-- Claim C6 (amended): on a poll tick whose snapshot is online with a
non-empty roster, exactly one PingSample is appended, computed by
`mkPingSample` over the post-reconciliation tracked players (low/avg/high
over the strictly positive tracked pings); when no tracked player has a
positive ping all three fields fall back to the bare server ping. -/
theorem C6_ping_sample_appended (now : Int) (d : ServerData) (s : Sys)
    (hon : d.online = true) (hne : d.players ≠ []) :
    (update_server_status now (some d) s).db.ping_logs
      = s.db.ping_logs
        ++ [mkPingSample now d.ping (update_player_data now d.players s).current_players] ∧
    (∀ (sp : ℚ) (cur : List (String × TrackInfo)), pingListOf cur = [] →
        mkPingSample now sp cur = ⟨now, sp, sp, sp, sp⟩) := by
  constructor
  · unfold update_server_status
    simp only [hon, if_true, if_neg hne]
    rw [check_player_changes_ping_logs, log_ping_data_ping_logs,
      update_player_data_ping_logs]
  · intro sp cur h
    unfold mkPingSample
    rw [h]

/-- Witness for C6: a tick over a one-player roster appends the sample;
and the fallback equation at an all-nonpositive-ping tracking map. -/
theorem C6_witness :
    ((update_server_status 0 (some ⟨true, 50, [mkPE "a" 7]⟩) sysEmpty).db.ping_logs
      = sysEmpty.db.ping_logs
        ++ [mkPingSample 0 50
              (update_player_data 0 [mkPE "a" 7] sysEmpty).current_players]) ∧
    mkPingSample 0 50 [("z", ⟨0, 0, [], "civilian", "civilian"⟩)] = ⟨0, 50, 50, 50, 50⟩ :=
  ⟨(C6_ping_sample_appended 0 ⟨true, 50, [mkPE "a" 7]⟩ sysEmpty rfl (by decide)).1,
   (C6_ping_sample_appended 0 ⟨true, 50, [mkPE "a" 7]⟩ sysEmpty rfl (by decide)).2 50
     [("z", ⟨0, 0, [], "civilian", "civilian"⟩)] (by decide)⟩

/-- Counterexample for C6 as stated: an online poll tick with an empty
roster appends no PingSample at all, and with tracked pings {0, 50} the
sample is computed over the positive pings only (low = 50, not 0). -/
theorem C6_counterexample :
    (update_server_status 0 (some ⟨true, 50, []⟩) sysEmpty).db.ping_logs = [] ∧
    (update_server_status 0 (some ⟨true, 50, []⟩) sysEmpty).last_server_online = true ∧
    mkPingSample 0 10 [("a", ⟨0, 0, [], "c", "c"⟩), ("b", ⟨0, 50, [], "c", "c"⟩)]
      = ⟨0, 50, 50, 50, 10⟩ ∧
    (0 : Int) < 50 := by
  refine ⟨by decide, by decide, ?_, by decide⟩
  simp [mkPingSample, pingListOf]

/-! ### Claim C5 -/

theorem windowEvents_eq_nil {cutoff : Int} {events : List Event}
    (h : ∀ e ∈ events, e.time < cutoff) : windowEvents cutoff events = [] := by
  induction events with
  | nil => rfl
  | cons e t ih =>
      have he := h e (List.mem_cons_self e t)
      rw [windowEvents, if_neg (by omega)]
      exact ih (fun e' he' => h e' (List.mem_cons_of_mem e he'))

/-- Claim C5: the peak-concurrency replay walks the in-window events in
chronological order maintaining a concurrent set (join = insert, leave =
discard) and its maximal size: on join(A)@t0, join(B)@t1, leave(A)@t2,
join(C)@t3 with t0 < t1 < t2 < t3 all in-window it yields 2, and when no
event falls in the window it returns the live tracked count. -/
theorem C5_peak_replay (t0 t1 t2 t3 cutoff : Int) (A B C : String) (c : Nat)
    (h01 : t0 < t1) (h12 : t1 < t2) (h23 : t2 < t3) (hc : cutoff ≤ t0)
    (hAB : A ≠ B) (hBC : B ≠ C) (hAC : A ≠ C) :
    calculate_peak_players cutoff
      [⟨t0, "join", A, {}⟩, ⟨t1, "join", B, {}⟩, ⟨t2, "leave", A, {}⟩,
       ⟨t3, "join", C, {}⟩] c = 2 ∧
    (∀ (cutoff' : Int) (events : List Event) (live : Nat),
        (∀ e ∈ events, e.time < cutoff') →
        calculate_peak_players cutoff' events live = live) := by
  constructor
  · have hc1 : cutoff ≤ t1 := by omega
    have hc2 : cutoff ≤ t2 := by omega
    have hc3 : cutoff ≤ t3 := by omega
    have hBA : ¬ B = A := fun h => hAB h.symm
    have hCB : ¬ C = B := fun h => hBC h.symm
    have hCA : ¬ C = A := fun h => hAC h.symm
    simp [calculate_peak_players, windowEvents, sortByTime, insertSorted, setInsert, setDiscard,
      hc, hc1, hc2, hc3, h01.le, h12.le, h23.le, le_of_lt (lt_trans h01 h12),
      le_of_lt (lt_trans h12 h23), le_of_lt (lt_trans h01 (lt_trans h12 h23)),
      hBA, hCB, hCA, hAB, hBC, hAC]
  · intro cutoff' events live h
    unfold calculate_peak_players
    rw [windowEvents_eq_nil h]

/-- Witness for C5 at concrete times 1 < 2 < 3 < 4 and live count 7. -/
theorem C5_witness :
    calculate_peak_players 0
      [⟨1, "join", "a", {}⟩, ⟨2, "join", "b", {}⟩, ⟨3, "leave", "a", {}⟩,
       ⟨4, "join", "c", {}⟩] 7 = 2 ∧
    calculate_peak_players 10 [⟨1, "join", "a", {}⟩] 5 = 5 :=
  ⟨(C5_peak_replay 1 2 3 4 0 "a" "b" "c" 7 (by decide) (by decide) (by decide) (by decide)
      (by decide) (by decide) (by decide)).1,
   (C5_peak_replay 1 2 3 4 0 "a" "b" "c" 7 (by decide) (by decide) (by decide) (by decide)
      (by decide) (by decide) (by decide)).2 10 [⟨1, "join", "a", {}⟩] 5
      (by intro e he; simp at he; subst he; decide)⟩

/-! ### Claim C7 support -/

theorem offlineNames_sublist (now : Int) (l : List (String × TrackInfo)) :
    (offlineNames now l).Sublist (dkeys l) := by
  induction l with
  | nil => simp [offlineNames, dkeys]
  | cons kv t ih =>
      obtain ⟨k, v⟩ := kv
      by_cases h : 120 < now - v.last_update
      · simpa [offlineNames, dkeys, h] using ih.cons₂ k
      · simpa [offlineNames, dkeys, h] using ih.cons k

theorem offlineNames_not_mem_fresh {now : Int} {l : List (String × TrackInfo)} {p : String}
    {info : TrackInfo} (hnd : (dkeys l).Nodup) (hlook : dlookup p l = some info)
    (hfresh : now - info.last_update ≤ 120) : p ∉ offlineNames now l := by
  induction l with
  | nil => simp [offlineNames]
  | cons kv t ih =>
      obtain ⟨k, v⟩ := kv
      have hnd' : k ∉ dkeys t ∧ (dkeys t).Nodup := by
        rw [dkeys, List.map_cons, List.nodup_cons] at hnd
        exact hnd
      by_cases hk : k = p
      · subst hk
        rw [dlookup, if_pos rfl] at hlook
        have hv : v = info := by injection hlook
        have hpt : k ∉ offlineNames now t := fun hmem =>
          hnd'.1 ((offlineNames_sublist now t).mem hmem)
        rw [offlineNames]
        by_cases h : 120 < now - v.last_update
        · rw [hv] at h
          omega
        · rw [if_neg h]
          exact hpt
      · rw [dlookup, if_neg hk] at hlook
        have hrec := ih hnd'.2 hlook
        rw [offlineNames]
        by_cases h : 120 < now - v.last_update
        · rw [if_pos h]
          intro hmem
          rcases List.mem_cons.mp hmem with h1 | h1
          · exact hk h1.symm
          · exact hrec h1
        · rw [if_neg h]
          exact hrec

theorem offlineNames_mem_stale {now : Int} {l : List (String × TrackInfo)} {p : String}
    {info : TrackInfo} (hlook : dlookup p l = some info)
    (hstale : 120 < now - info.last_update) : p ∈ offlineNames now l := by
  induction l with
  | nil => simp [dlookup] at hlook
  | cons kv t ih =>
      obtain ⟨k, v⟩ := kv
      by_cases hk : k = p
      · subst hk
        rw [dlookup, if_pos rfl] at hlook
        injection hlook with hv
        subst hv
        simp [offlineNames, hstale]
      · rw [dlookup, if_neg hk] at hlook
        by_cases h : 120 < now - v.last_update <;> simp [offlineNames, h, ih hlook]

/-! ### Claim C7 -/

/-- Claim C7: the reaper never removes a player whose `last_update` is
within the 120-second threshold of the reap time (strictly: it fires only
when `now - last_update > 120`); once a player is stale, a single reap
run removes the tracking entries and logs exactly one `"leave"` event
with reason `"timeout"` and `session_duration = now - sessionStartedAt`,
no matter how many ticks were missed. -/
theorem C7_reaper_threshold (now : Int) (s : Sys) (p : String) (info : TrackInfo) (t0 : Int)
    (hnd : ndInv s) (htrack : trackOf p s = some info) :
    (now - info.last_update ≤ 120 →
        trackOf p (clean_offline_players now s) = some info ∧
        evOf p (clean_offline_players now s) = evOf p s) ∧
    (120 < now - info.last_update → startOf p s = some t0 →
        trackOf p (clean_offline_players now s) = none ∧
        startOf p (clean_offline_players now s) = none ∧
        evOf p (clean_offline_players now s)
          = evOf p s
            ++ [⟨now, "leave", p, ⟨none, none, some (now - t0), some "timeout"⟩⟩]) := by
  constructor
  · intro hfresh
    have hnotmem : p ∉ offlineNames now s.current_players :=
      offlineNames_not_mem_fresh hnd.1 htrack hfresh
    unfold clean_offline_players
    exact foldl_preserve (reapStep now)
      (fun st => trackOf p st = some info ∧ evOf p st = evOf p s)
      (offlineNames now s.current_players) s
      (fun st q hq hP => by
        have hqp : q ≠ p := fun h => hnotmem (h ▸ hq)
        obtain ⟨f1, _, _, f4⟩ := reapStep_frame hqp now st
        exact ⟨f1.trans hP.1, f4.trans hP.2⟩)
      ⟨htrack, rfl⟩
  · intro hstale hstart
    have hmem : p ∈ offlineNames now s.current_players :=
      offlineNames_mem_stale htrack hstale
    have hcount : (offlineNames now s.current_players).countP (fun q => q == p) = 1 :=
      List.count_eq_one_of_mem (((offlineNames_sublist now s.current_players)).nodup hnd.1) hmem
    unfold clean_offline_players
    exact foldl_once (reapStep now)
      (fun st => startOf p st = some t0 ∧ evOf p st = evOf p s ∧ ndInv st)
      (fun st => trackOf p st = none ∧ startOf p st = none ∧
        evOf p st = evOf p s
          ++ [⟨now, "leave", p, ⟨none, none, some (now - t0), some "timeout"⟩⟩])
      (fun q => q == p)
      (offlineNames now s.current_players)
      (fun st q _ hne hQ => by
        have hqp : q ≠ p := by simpa using hne
        obtain ⟨_, f2, _, f4⟩ := reapStep_frame hqp now st
        exact ⟨f2.trans hQ.1, f4.trans hQ.2.1, ndInv_reapStep now st q hQ.2.2⟩)
      (fun st q _ hne hR => by
        have hqp : q ≠ p := by simpa using hne
        obtain ⟨f1, f2, _, f4⟩ := reapStep_frame hqp now st
        exact ⟨f1.trans hR.1, f2.trans hR.2.1, f4.trans hR.2.2⟩)
      (fun st q _ heq hQ => by
        have hqp : q = p := by simpa using heq
        subst hqp
        obtain ⟨r1, r2, _, r4⟩ := reapStep_self hQ.1 hQ.2.2 now
        exact ⟨r1, r2, by rw [r4, hQ.2.1]⟩)
      s hcount ⟨hstart, rfl, hnd⟩

/-- Witness for C7: in `sys3` at time 121 every entry is stale
(121 - 0 > 120); player "a" is reaped with one timeout leave; at time
100 the same player is kept. -/
theorem C7_witness :
    ((100 : Int) - (0 : Int) ≤ 120 ∧
      trackOf "a" (clean_offline_players 100 sys3)
        = some ⟨0, 1, [], "civilian", "civilian"⟩ ∧
      evOf "a" (clean_offline_players 100 sys3) = evOf "a" sys3) ∧
    ((120 : Int) < 121 - 0 ∧
      trackOf "a" (clean_offline_players 121 sys3) = none ∧
      startOf "a" (clean_offline_players 121 sys3) = none ∧
      evOf "a" (clean_offline_players 121 sys3)
        = evOf "a" sys3
          ++ [⟨121, "leave", "a", ⟨none, none, some (121 - 0), some "timeout"⟩⟩]) := by
  have hnd : ndInv sys3 := by
    constructor <;> decide
  have h1 := (C7_reaper_threshold 100 sys3 "a" ⟨0, 1, [], "civilian", "civilian"⟩ 0 hnd
    (by decide)).1 (by decide)
  have h2 := (C7_reaper_threshold 121 sys3 "a" ⟨0, 1, [], "civilian", "civilian"⟩ 0 hnd
    (by decide)).2 (by decide) (by decide)
  exact ⟨⟨by decide, h1.1, h1.2⟩, ⟨by decide, h2.1, h2.2.1, h2.2.2⟩⟩

/-! ### Claim C8 -/

/-- Claim C8: sentinel roster entries (empty after strip, or
case-insensitively `unknown`/`null`) are dropped by the `get_players`
cleaning before any diffing, so they can never produce events, tracked
presence or record writes (the tick on a parsed roster equals the tick
on the sentinel-free roster); the reconciler additionally skips
`''`/`'Unknown'` names itself; and all diffing matches names by exact,
case-sensitive string equality — an entry whose name differs from `p`
at all (even only in case) never touches `p`'s state. -/
theorem C8_sentinel_and_exact_match :
    (∀ raw : List RawPlayer,
        get_players_parse raw
          = get_players_parse (raw.filter (fun r => decide (¬ sentinelName r.name)))) ∧
    (∀ (raw : List RawPlayer) (e : PEntry), e ∈ get_players_parse raw →
        ∃ r ∈ raw, ¬ sentinelName r.name ∧ e.name = pyStrip r.name ∧ e.ping = r.ping) ∧
    (∀ (now : Int) (onl : Bool) (pg : ℚ) (raw : List RawPlayer) (s : Sys),
        update_server_status now (some ⟨onl, pg, get_players_parse raw⟩) s
          = update_server_status now
              (some ⟨onl, pg,
                get_players_parse (raw.filter (fun r => decide (¬ sentinelName r.name)))⟩) s) ∧
    (∀ (now : Int) (s : Sys) (e : PEntry), (e.name = "" ∨ e.name = "Unknown") →
        processEntry now s e = s) ∧
    (∀ (now : Int) (s : Sys) (e : PEntry) (p : String), e.name ≠ p →
        trackOf p (processEntry now s e) = trackOf p s ∧
        startOf p (processEntry now s e) = startOf p s ∧
        recOf p (processEntry now s e) = recOf p s ∧
        evOf p (processEntry now s e) = evOf p s) := by
  have hfilter : ∀ raw : List RawPlayer,
      get_players_parse raw
        = get_players_parse (raw.filter (fun r => decide (¬ sentinelName r.name))) := by
    intro raw
    induction raw with
    | nil => rfl
    | cons r t ih =>
        by_cases hs : sentinelName r.name
        · rw [get_players_parse, if_pos hs, List.filter_cons,
            if_neg (by simp [hs]), ih]
        · rw [get_players_parse, if_neg hs, List.filter_cons,
            if_pos (by simp [hs]), get_players_parse, if_neg hs, ih]
  refine ⟨hfilter, ?_, ?_, ?_, ?_⟩
  · intro raw
    induction raw with
    | nil => intro e he; exact absurd he (by simp [get_players_parse])
    | cons r t ih =>
        intro e he
        by_cases hs : sentinelName r.name
        · rw [get_players_parse, if_pos hs] at he
          obtain ⟨r', hr', hprop⟩ := ih e he
          exact ⟨r', List.mem_cons_of_mem r hr', hprop⟩
        · rw [get_players_parse, if_neg hs] at he
          rcases List.mem_cons.mp he with h1 | h1
          · exact ⟨r, List.mem_cons_self r t, hs, by rw [h1], by rw [h1]⟩
          · obtain ⟨r', hr', hprop⟩ := ih e h1
            exact ⟨r', List.mem_cons_of_mem r hr', hprop⟩
  · intro now onl pg raw s
    rw [hfilter raw]
  · exact fun now s e h => processEntry_skip h now s
  · exact fun now s e p h => processEntry_frame h now s

/-- Witness for C8: a roster with one real name (padded), `Unknown`,
`null`, the empty string and case-variant `NULL` parses to just the real
entry; `processEntry` ignores an `'Unknown'` entry; and a lowercase
`"bob"` entry does not touch the state of the distinct name `"Bob"`. -/
theorem C8_witness :
    (get_players_parse
        [⟨" Bob ", 5, []⟩, ⟨"Unknown", 1, []⟩, ⟨"null", 2, []⟩, ⟨"", 3, []⟩, ⟨"NULL", 9, []⟩]
      = get_players_parse
          (([⟨" Bob ", 5, []⟩, ⟨"Unknown", 1, []⟩, ⟨"null", 2, []⟩, ⟨"", 3, []⟩,
             ⟨"NULL", 9, []⟩] : List RawPlayer).filter
            (fun r => decide (¬ sentinelName r.name)))) ∧
    get_players_parse
        [⟨" Bob ", 5, []⟩, ⟨"Unknown", 1, []⟩, ⟨"null", 2, []⟩, ⟨"", 3, []⟩, ⟨"NULL", 9, []⟩]
      = [⟨"Bob", 5, [], "civilian", "civilian"⟩] ∧
    processEntry 0 sys3 (mkPE "Unknown" 5) = sys3 ∧
    trackOf "Bob" (processEntry 0 sys3 (mkPE "bob" 5)) = trackOf "Bob" sys3 :=
  ⟨C8_sentinel_and_exact_match.1 _,
   by decide,
   C8_sentinel_and_exact_match.2.2.2.1 0 sys3 (mkPE "Unknown" 5) (Or.inr rfl),
   (C8_sentinel_and_exact_match.2.2.2.2 0 sys3 (mkPE "bob" 5) "Bob" (by decide)).1⟩

/-! ### update_player_data support -/

theorem validNames_not_mem {players : List PEntry} {p : String}
    (h : ∀ e ∈ players, e.name ≠ p) : p ∉ validNames players := by
  induction players with
  | nil => simp [validNames]
  | cons e t ih =>
      have he := h e (List.mem_cons_self e t)
      have ht := ih (fun e' he' => h e' (List.mem_cons_of_mem e he'))
      rw [validNames]
      by_cases hs : e.name = "" ∨ e.name = "Unknown"
      · rw [if_pos hs]
        exact ht
      · rw [if_neg hs]
        intro hmem
        rcases List.mem_cons.mp hmem with h1 | h1
        · exact he h1.symm
        · exact ht h1

theorem validNames_mem {players : List PEntry} {pe : PEntry} {p : String}
    (hmem : pe ∈ players) (hname : pe.name = p) (hval : ¬(p = "" ∨ p = "Unknown")) :
    p ∈ validNames players := by
  induction players with
  | nil => exact absurd hmem (List.not_mem_nil pe)
  | cons e t ih =>
      rw [validNames]
      rcases List.mem_cons.mp hmem with h1 | h1
      · subst h1
        rw [hname, if_neg hval]
        exact List.mem_cons_self p _
      · by_cases hs : e.name = "" ∨ e.name = "Unknown"
        · rw [if_pos hs]
          exact ih h1
        · rw [if_neg hs]
          exact List.mem_cons_of_mem e.name (ih h1)

theorem leftNames_sublist (names l : List String) : (leftNames names l).Sublist l := by
  induction l with
  | nil => simp [leftNames]
  | cons a t ih =>
      by_cases h : a ∈ names
      · simpa [leftNames, h] using ih.cons a
      · simpa [leftNames, h] using ih.cons₂ a

theorem mem_leftNames {names l : List String} {q : String} :
    q ∈ leftNames names l ↔ q ∈ l ∧ q ∉ names := by
  induction l with
  | nil => simp [leftNames]
  | cons a t ih =>
      by_cases h : a ∈ names
      · rw [leftNames, if_pos h, ih]
        constructor
        · exact fun ⟨h1, h2⟩ => ⟨List.mem_cons_of_mem a h1, h2⟩
        · rintro ⟨h1, h2⟩
          rcases List.mem_cons.mp h1 with h3 | h3
          · exact absurd (h3 ▸ h) h2
          · exact ⟨h3, h2⟩
      · rw [leftNames, if_neg h]
        constructor
        · intro hmem
          rcases List.mem_cons.mp hmem with h3 | h3
          · exact ⟨h3 ▸ List.mem_cons_self a t, h3 ▸ h⟩
          · exact ⟨List.mem_cons_of_mem a (ih.mp h3).1, (ih.mp h3).2⟩
        · rintro ⟨h1, h2⟩
          rcases List.mem_cons.mp h1 with h3 | h3
          · exact h3 ▸ List.mem_cons_self q _
          · exact List.mem_cons_of_mem a (ih.mpr ⟨h3, h2⟩)

theorem ndInv_rosterFold (now : Int) (players : List PEntry) {s : Sys} (h : ndInv s) :
    ndInv (players.foldl (processEntry now) s) :=
  foldl_preserve (processEntry now) ndInv players s
    (fun st e _ hP => ndInv_processEntry now st e hP) h

theorem ndInv_leaveFold (now : Int) (l : List String) {s : Sys} (h : ndInv s) :
    ndInv (l.foldl (processLeave now) s) :=
  foldl_preserve (processLeave now) ndInv l s
    (fun st q _ hP => ndInv_processLeave now st q hP) h

theorem ndInv_update_player_data (now : Int) (players : List PEntry) {s : Sys} (h : ndInv s) :
    ndInv (update_player_data now players s) := by
  unfold update_player_data
  exact ndInv_leaveFold now _ (ndInv_rosterFold now players h)

/-- Frame of the roster loop for a name no entry carries. -/
theorem rosterFold_frame {players : List PEntry} {p : String}
    (hall : ∀ e ∈ players, e.name ≠ p) (now : Int) (s : Sys) :
    trackOf p (players.foldl (processEntry now) s) = trackOf p s ∧
    startOf p (players.foldl (processEntry now) s) = startOf p s ∧
    recOf p (players.foldl (processEntry now) s) = recOf p s ∧
    evOf p (players.foldl (processEntry now) s) = evOf p s :=
  foldl_preserve (processEntry now)
    (fun st => trackOf p st = trackOf p s ∧ startOf p st = startOf p s ∧
      recOf p st = recOf p s ∧ evOf p st = evOf p s)
    players s
    (fun st e he hP => by
      obtain ⟨f1, f2, f3, f4⟩ := processEntry_frame (hall e he) now st
      exact ⟨f1.trans hP.1, f2.trans hP.2.1, f3.trans hP.2.2.1, f4.trans hP.2.2.2⟩)
    ⟨rfl, rfl, rfl, rfl⟩

/-- Frame of the departure loop for a name not in the processed list. -/
theorem leaveFold_frame {l : List String} {p : String} (hnot : p ∉ l) (now : Int) (s : Sys) :
    trackOf p (l.foldl (processLeave now) s) = trackOf p s ∧
    startOf p (l.foldl (processLeave now) s) = startOf p s ∧
    recOf p (l.foldl (processLeave now) s) = recOf p s ∧
    evOf p (l.foldl (processLeave now) s) = evOf p s :=
  foldl_preserve (processLeave now)
    (fun st => trackOf p st = trackOf p s ∧ startOf p st = startOf p s ∧
      recOf p st = recOf p s ∧ evOf p st = evOf p s)
    l s
    (fun st q hq hP => by
      have hqp : q ≠ p := fun h => hnot (h ▸ hq)
      obtain ⟨f1, f2, f3, f4⟩ := processLeave_frame hqp now st
      exact ⟨f1.trans hP.1, f2.trans hP.2.1, f3.trans hP.2.2.1, f4.trans hP.2.2.2⟩)
    ⟨rfl, rfl, rfl, rfl⟩

theorem playtimeOf_congr {p : String} {st s' : Sys} (h : recOf p st = recOf p s') :
    playtimeOf p st.db = playtimeOf p s'.db := by
  unfold recOf at h
  unfold playtimeOf
  rw [h]

theorem sessionsOf_congr {p : String} {st s' : Sys} (h : recOf p st = recOf p s') :
    sessionsOf p st.db = sessionsOf p s'.db := by
  unfold recOf at h
  unfold sessionsOf
  rw [h]

theorem playtimeOf_eq_some {p : String} {st : Sys} {r : PlayerRec}
    (h : recOf p st = some r) : playtimeOf p st.db = r.playtime := by
  unfold recOf at h
  unfold playtimeOf
  rw [h]
  rfl

theorem playtimeOf_eq_none {p : String} {st : Sys} (h : recOf p st = none) :
    playtimeOf p st.db = 0 := by
  unfold recOf at h
  unfold playtimeOf
  rw [h]
  rfl

theorem sessionsOf_eq_some {p : String} {st : Sys} {r : PlayerRec}
    (h : recOf p st = some r) : sessionsOf p st.db = r.totalSessions := by
  unfold recOf at h
  unfold sessionsOf
  rw [h]
  rfl

theorem sessionsOf_eq_none {p : String} {st : Sys} (h : recOf p st = none) :
    sessionsOf p st.db = 0 := by
  unfold recOf at h
  unfold sessionsOf
  rw [h]
  rfl

/-- Reconciler tick for a player absent from tracking and from the
roster: a no-op on that player's state. -/
theorem update_player_data_untracked {players : List PEntry} {p : String} {s : Sys}
    (hall : ∀ e ∈ players, e.name ≠ p) (htrack : trackOf p s = none)
    (hstart : startOf p s = none) (now : Int) :
    trackOf p (update_player_data now players s) = none ∧
    startOf p (update_player_data now players s) = none ∧
    recOf p (update_player_data now players s) = recOf p s ∧
    evOf p (update_player_data now players s) = evOf p s := by
  unfold update_player_data
  obtain ⟨f1, f2, f3, f4⟩ := rosterFold_frame hall now s
  have hmem : p ∉ dkeys (players.foldl (processEntry now) s).current_players := by
    rw [← dlookup_eq_none_iff]
    exact f1.trans htrack
  have hnotleft : p ∉ leftNames (validNames players)
      (dkeys (players.foldl (processEntry now) s).current_players) :=
    fun h => hmem (mem_leftNames.mp h).1
  obtain ⟨g1, g2, g3, g4⟩ := leaveFold_frame hnotleft now (players.foldl (processEntry now) s)
  exact ⟨g1.trans (f1.trans htrack), g2.trans (f2.trans hstart), g3.trans f3, g4.trans f4⟩

/-- Reconciler tick for a tracked player missing from a roster that never
names them: one leave event (no reason field), tracking dropped, and the
`session_duration mod 30` remainder flushed into the stored playtime. -/
theorem update_player_data_absent {players : List PEntry} {p : String} {s : Sys}
    {info : TrackInfo} {t0 : Int}
    (hnd : ndInv s) (hall : ∀ e ∈ players, e.name ≠ p) (htrack : trackOf p s = some info)
    (hstart : startOf p s = some t0) (now : Int) :
    trackOf p (update_player_data now players s) = none ∧
    startOf p (update_player_data now players s) = none ∧
    evOf p (update_player_data now players s)
      = evOf p s ++ [⟨now, "leave", p, ⟨none, none, some (now - t0), none⟩⟩] ∧
    playtimeOf p (update_player_data now players s).db
      = playtimeOf p s.db + (now - t0) % 30 ∧
    sessionsOf p (update_player_data now players s).db = sessionsOf p s.db := by
  unfold update_player_data
  obtain ⟨f1, f2, f3, f4⟩ := rosterFold_frame hall now s
  have hnd1 : ndInv (players.foldl (processEntry now) s) := ndInv_rosterFold now players hnd
  have hmem : p ∈ dkeys (players.foldl (processEntry now) s).current_players :=
    mem_dkeys_of_dlookup (f1.trans htrack)
  have hmemL : p ∈ leftNames (validNames players)
      (dkeys (players.foldl (processEntry now) s).current_players) :=
    mem_leftNames.mpr ⟨hmem, validNames_not_mem hall⟩
  have hcount : (leftNames (validNames players)
      (dkeys (players.foldl (processEntry now) s).current_players)).countP
        (fun q => q == p) = 1 :=
    List.count_eq_one_of_mem ((leftNames_sublist _ _).nodup hnd1.1) hmemL
  exact foldl_once (processLeave now)
    (fun st => startOf p st = some t0 ∧ recOf p st = recOf p s ∧ evOf p st = evOf p s ∧
      ndInv st)
    (fun st => trackOf p st = none ∧ startOf p st = none ∧
      evOf p st = evOf p s ++ [⟨now, "leave", p, ⟨none, none, some (now - t0), none⟩⟩] ∧
      playtimeOf p st.db = playtimeOf p s.db + (now - t0) % 30 ∧
      sessionsOf p st.db = sessionsOf p s.db)
    (fun q => q == p)
    (leftNames (validNames players)
      (dkeys (players.foldl (processEntry now) s).current_players))
    (fun st q _ hne hQ => by
      have hqp : q ≠ p := by simpa using hne
      obtain ⟨_, g2, g3, g4⟩ := processLeave_frame hqp now st
      exact ⟨g2.trans hQ.1, g3.trans hQ.2.1, g4.trans hQ.2.2.1,
        ndInv_processLeave now st q hQ.2.2.2⟩)
    (fun st q _ hne hR => by
      have hqp : q ≠ p := by simpa using hne
      obtain ⟨g1, g2, g3, g4⟩ := processLeave_frame hqp now st
      exact ⟨g1.trans hR.1, g2.trans hR.2.1, g4.trans hR.2.2.1,
        (playtimeOf_congr g3).trans hR.2.2.2.1, (sessionsOf_congr g3).trans hR.2.2.2.2⟩)
    (fun st q _ heq hQ => by
      have hqp : q = p := by simpa using heq
      subst hqp
      obtain ⟨r1, r2, r3, r4, r5⟩ := processLeave_self hQ.1 hQ.2.2.2 now
      refine ⟨r1, r2, by rw [r3, hQ.2.2.1], ?_, ?_⟩
      · rw [r4, playtimeOf_congr hQ.2.1]
      · rw [r5, sessionsOf_congr hQ.2.1])
    (players.foldl (processEntry now) s) hcount
    ⟨f2.trans hstart, f3, f4, hnd1⟩

/-- Reconciler tick for a first-seen player occurring once in the
roster: session start recorded, one join event, zero accrual. -/
theorem update_player_data_present_new {A B : List PEntry} {pe : PEntry} {p : String}
    {s : Sys} (hnd : ndInv s) (hpe : pe.name = p) (hA : ∀ e ∈ A, e.name ≠ p)
    (hB : ∀ e ∈ B, e.name ≠ p) (hval : ¬(p = "" ∨ p = "Unknown"))
    (htrack : trackOf p s = none) (now : Int) :
    trackOf p (update_player_data now (A ++ pe :: B) s)
      = some ⟨now, pe.ping, pe.identifiers, pe.job, pe.role⟩ ∧
    startOf p (update_player_data now (A ++ pe :: B) s) = some now ∧
    evOf p (update_player_data now (A ++ pe :: B) s)
      = evOf p s ++ [⟨now, "join", p, ⟨some pe.ping, some pe.identifiers, none, none⟩⟩] ∧
    (∀ r, recOf p s = some r →
        recOf p (update_player_data now (A ++ pe :: B) s)
          = some ({ r with identifiers := pe.identifiers, lastSeen := now, job := pe.job,
                           role := pe.role, ping := pe.ping, playtime := r.playtime + 0,
                           totalSessions := r.totalSessions + 1 })) ∧
    (recOf p s = none →
        recOf p (update_player_data now (A ++ pe :: B) s)
          = some ⟨pe.identifiers, now, pe.job, pe.role, pe.ping, 0, now, 0⟩) ∧
    playtimeOf p (update_player_data now (A ++ pe :: B) s).db = playtimeOf p s.db := by
  have hsk : ¬(pe.name = "" ∨ pe.name = "Unknown") := by rw [hpe]; exact hval
  unfold update_player_data
  rw [List.foldl_append, List.foldl_cons]
  obtain ⟨fA1, fA2, fA3, fA4⟩ := rosterFold_frame hA now s
  have htrackA : trackOf p (A.foldl (processEntry now) s) = none := fA1.trans htrack
  obtain ⟨n1, n2, n3⟩ := processEntry_new hpe hsk htrackA now
  obtain ⟨fB1, fB2, fB3, fB4⟩ :=
    rosterFold_frame hB now (processEntry now (A.foldl (processEntry now) s) pe)
  have hmemV : p ∈ validNames (A ++ pe :: B) :=
    validNames_mem (List.mem_append_right A (List.mem_cons_self pe B)) hpe hval
  have hnotleft : p ∉ leftNames (validNames (A ++ pe :: B))
      (dkeys (B.foldl (processEntry now)
        (processEntry now (A.foldl (processEntry now) s) pe)).current_players) :=
    fun h => (mem_leftNames.mp h).2 hmemV
  obtain ⟨g1, g2, g3, g4⟩ := leaveFold_frame hnotleft now
    (B.foldl (processEntry now) (processEntry now (A.foldl (processEntry now) s) pe))
  refine ⟨g1.trans (fB1.trans n1), g2.trans (fB2.trans n2),
    (g4.trans fB4).trans (by rw [n3, fA4]), ?_, ?_, ?_⟩
  · intro r hr
    have hrecA : recOf p (A.foldl (processEntry now) s) = some r := fA3.trans hr
    have := processEntry_new_rec_some hpe hsk htrackA hrecA now
    exact (g3.trans fB3).trans this
  · intro hr
    have hrecA : recOf p (A.foldl (processEntry now) s) = none := fA3.trans hr
    have := processEntry_new_rec_none hpe hsk htrackA hrecA now
    exact (g3.trans fB3).trans this
  · cases hrec : recOf p s with
    | some r =>
        have heff := processEntry_new_rec_some hpe hsk htrackA (fA3.trans hrec) now
        have hfin := (g3.trans fB3).trans heff
        rw [playtimeOf_eq_some hfin, playtimeOf_eq_some hrec]
        norm_num
    | none =>
        have heff := processEntry_new_rec_none hpe hsk htrackA (fA3.trans hrec) now
        have hfin := (g3.trans fB3).trans heff
        rw [playtimeOf_eq_some hfin, playtimeOf_eq_none hrec]

/-- Reconciler tick for an already-tracked player occurring once in the
roster: 30 seconds accrued, session start untouched, no event. -/
theorem update_player_data_present_cont {A B : List PEntry} {pe : PEntry} {p : String}
    {s : Sys} {info : TrackInfo} (hnd : ndInv s) (hpe : pe.name = p)
    (hA : ∀ e ∈ A, e.name ≠ p) (hB : ∀ e ∈ B, e.name ≠ p)
    (hval : ¬(p = "" ∨ p = "Unknown")) (htrack : trackOf p s = some info) (now : Int) :
    trackOf p (update_player_data now (A ++ pe :: B) s)
      = some ⟨now, pe.ping, pe.identifiers, pe.job, pe.role⟩ ∧
    startOf p (update_player_data now (A ++ pe :: B) s) = startOf p s ∧
    evOf p (update_player_data now (A ++ pe :: B) s) = evOf p s ∧
    playtimeOf p (update_player_data now (A ++ pe :: B) s).db = playtimeOf p s.db + 30 ∧
    sessionsOf p (update_player_data now (A ++ pe :: B) s).db = sessionsOf p s.db := by
  have hsk : ¬(pe.name = "" ∨ pe.name = "Unknown") := by rw [hpe]; exact hval
  unfold update_player_data
  rw [List.foldl_append, List.foldl_cons]
  obtain ⟨fA1, fA2, fA3, fA4⟩ := rosterFold_frame hA now s
  have htrackA : trackOf p (A.foldl (processEntry now) s) = some info := fA1.trans htrack
  obtain ⟨n1, n2, n3⟩ := processEntry_cont hpe hsk htrackA now
  obtain ⟨fB1, fB2, fB3, fB4⟩ :=
    rosterFold_frame hB now (processEntry now (A.foldl (processEntry now) s) pe)
  have hmemV : p ∈ validNames (A ++ pe :: B) :=
    validNames_mem (List.mem_append_right A (List.mem_cons_self pe B)) hpe hval
  have hnotleft : p ∉ leftNames (validNames (A ++ pe :: B))
      (dkeys (B.foldl (processEntry now)
        (processEntry now (A.foldl (processEntry now) s) pe)).current_players) :=
    fun h => (mem_leftNames.mp h).2 hmemV
  obtain ⟨g1, g2, g3, g4⟩ := leaveFold_frame hnotleft now
    (B.foldl (processEntry now) (processEntry now (A.foldl (processEntry now) s) pe))
  refine ⟨g1.trans (fB1.trans n1), g2.trans (fB2.trans (n2.trans fA2)),
    (g4.trans fB4).trans (n3.trans fA4), ?_, ?_⟩
  · cases hrec : recOf p s with
    | some r =>
        have heff := processEntry_cont_rec_some hpe hsk htrackA (fA3.trans hrec) now
        have hfin := (g3.trans fB3).trans heff
        rw [playtimeOf_eq_some hfin, playtimeOf_eq_some hrec]
    | none =>
        have heff := processEntry_cont_rec_none hpe hsk htrackA (fA3.trans hrec) now
        have hfin := (g3.trans fB3).trans heff
        rw [playtimeOf_eq_some hfin, playtimeOf_eq_none hrec]
        norm_num
  · cases hrec : recOf p s with
    | some r =>
        have heff := processEntry_cont_rec_some hpe hsk htrackA (fA3.trans hrec) now
        have hfin := (g3.trans fB3).trans heff
        rw [sessionsOf_eq_some hfin, sessionsOf_eq_some hrec]
    | none =>
        have heff := processEntry_cont_rec_none hpe hsk htrackA (fA3.trans hrec) now
        have hfin := (g3.trans fB3).trans heff
        rw [sessionsOf_eq_some hfin, sessionsOf_eq_none hrec]

theorem countNamed_eq_one_split {p : String} {players : List PEntry}
    (h : countNamed p players = 1) :
    ∃ A pe B, players = A ++ pe :: B ∧ pe.name = p ∧
      (∀ e ∈ A, e.name ≠ p) ∧ (∀ e ∈ B, e.name ≠ p) := by
  induction players with
  | nil => exact absurd h (by simp [countNamed])
  | cons e t ih =>
      rw [countNamed, List.countP_cons] at h
      by_cases he : e.name = p
      · have h0 : t.countP (fun e => e.name == p) = 1 - 1 := by
          rw [if_pos (by simp [he])] at h
          omega
        have hall : ∀ b ∈ t, b.name ≠ p := fun b hb => by
          have := List.countP_eq_zero.mp (by omega : t.countP (fun e => e.name == p) = 0) b hb
          simpa using this
        exact ⟨[], e, t, rfl, he, by simp, hall⟩
      · rw [if_neg (by simp [he])] at h
        obtain ⟨A, pe, B, heq, hpe, hA, hB⟩ := ih h
        exact ⟨e :: A, pe, B, by rw [heq]; rfl, hpe,
          fun b hb => by
            rcases List.mem_cons.mp hb with h1 | h1
            · exact h1 ▸ he
            · exact hA b h1,
          hB⟩

/-! ### Claim C1 -/

/-- Claim C1 (amended): with snapshots processed at the exact 30-second
nominal cadence and the player named at most once per roster, the
accrual bookkeeping (0 on the joining tick, 30 per continuing tick, plus
the `mod 30` flush on leave — zero under exact spacing) makes the stored
playtime match wall-clock time: while the player is still online, the
accrued playtime alone equals the wall-clock time since the joining tick
(and equals the running session duration); after the departure tick the
accrued total equals the wall-clock span from the joining tick to the
leave-detection tick minus exactly one tick interval, i.e. within one
tick-interval of the wall clock. -/
theorem C1_accrual_matches_wall_clock (t0 : Int) (R : Nat → List PEntry) (s : Sys)
    (p : String) (j k : Nat)
    (hnd : ndInv s) (htrack : trackOf p s = none) (hstart : startOf p s = none)
    (hval : ¬(p = "" ∨ p = "Unknown"))
    (habsent : ∀ i, i < j → ∀ e ∈ R i, e.name ≠ p)
    (hpresent : ∀ i, j ≤ i → i ≤ j + k → countNamed p (R i) = 1)
    (hleave : ∀ e ∈ R (j + k + 1), e.name ≠ p) :
    (∀ m, m ≤ k →
        playtimeOf p (runTrace t0 R s (j + m + 1)).db
          = playtimeOf p s.db + (tickTime t0 (j + m) - tickTime t0 j) ∧
        startOf p (runTrace t0 R s (j + m + 1)) = some (tickTime t0 j) ∧
        get_current_session_duration (tickTime t0 (j + m)) p (runTrace t0 R s (j + m + 1))
          = tickTime t0 (j + m) - tickTime t0 j) ∧
    (playtimeOf p (runTrace t0 R s (j + k + 2)).db
        = playtimeOf p s.db + (tickTime t0 (j + k + 1) - tickTime t0 j) - 30 ∧
      trackOf p (runTrace t0 R s (j + k + 2)) = none ∧
      startOf p (runTrace t0 R s (j + k + 2)) = none) := by
  -- Phase A: before the join the trace never touches p.
  have hA : ∀ i, i ≤ j →
      trackOf p (runTrace t0 R s i) = none ∧ startOf p (runTrace t0 R s i) = none ∧
      recOf p (runTrace t0 R s i) = recOf p s ∧ ndInv (runTrace t0 R s i) := by
    intro i
    induction i with
    | zero => exact fun _ => ⟨htrack, hstart, rfl, hnd⟩
    | succ i ih =>
        intro hij
        obtain ⟨a1, a2, a3, a4⟩ := ih (by omega)
        obtain ⟨u1, u2, u3, u4⟩ :=
          update_player_data_untracked (habsent i (by omega)) a1 a2 (t0 + 30 * i)
        exact ⟨u1, u2, u3.trans a3, ndInv_update_player_data _ _ a4⟩
  -- Phase B: while present, each tick accrues exactly 30 seconds.
  have hB : ∀ m, m ≤ k →
      (∃ info, trackOf p (runTrace t0 R s (j + m + 1)) = some info) ∧
      startOf p (runTrace t0 R s (j + m + 1)) = some (tickTime t0 j) ∧
      playtimeOf p (runTrace t0 R s (j + m + 1)).db = playtimeOf p s.db + 30 * m ∧
      ndInv (runTrace t0 R s (j + m + 1)) := by
    intro m
    induction m with
    | zero =>
        intro _
        obtain ⟨a1, a2, a3, a4⟩ := hA j (le_refl j)
        obtain ⟨A, pe, B, heq, hpe, hAn, hBn⟩ :=
          countNamed_eq_one_split (hpresent j (le_refl j) (by omega))
        have hstep := update_player_data_present_new a4 hpe hAn hBn hval a1 (t0 + 30 * j)
        rw [← heq] at hstep
        refine ⟨⟨_, hstep.1⟩, hstep.2.1, ?_, ndInv_update_player_data _ _ a4⟩
        have := hstep.2.2.2.2.2
        rw [show runTrace t0 R s (j + 0 + 1) = update_player_data (t0 + 30 * j) (R j)
            (runTrace t0 R s j) from by rw [show j + 0 + 1 = j + 1 from rfl]; rfl]
        rw [this, playtimeOf_congr a3]
        simp
    | succ m ih =>
        intro hm
        obtain ⟨⟨info, b1⟩, b2, b3, b4⟩ := ih (by omega)
        obtain ⟨A, pe, B, heq, hpe, hAn, hBn⟩ :=
          countNamed_eq_one_split (hpresent (j + m + 1) (by omega) (by omega))
        have hstep := update_player_data_present_cont b4 hpe hAn hBn hval b1
          (t0 + 30 * (j + m + 1))
        rw [← heq] at hstep
        have hrun : runTrace t0 R s (j + (m + 1) + 1)
            = update_player_data (t0 + 30 * (j + m + 1)) (R (j + m + 1))
                (runTrace t0 R s (j + m + 1)) := by
          rw [show j + (m + 1) + 1 = (j + m + 1) + 1 from by omega]
          rfl
        rw [hrun]
        refine ⟨⟨_, hstep.1⟩, hstep.2.1.trans b2, ?_,
          ndInv_update_player_data _ _ b4⟩
        rw [hstep.2.2.2.1, b3]
        push_cast
        ring
  constructor
  · intro m hm
    obtain ⟨_, b2, b3, _⟩ := hB m hm
    refine ⟨?_, b2, ?_⟩
    · rw [b3]
      unfold tickTime
      push_cast
      ring
    · unfold get_current_session_duration
      unfold startOf at b2
      rw [b2]
  · obtain ⟨⟨info, b1⟩, b2, b3, b4⟩ := hB k (le_refl k)
    have hstep := update_player_data_absent b4 hleave b1 b2 (t0 + 30 * (j + k + 1))
    have hrun : runTrace t0 R s (j + k + 2)
        = update_player_data (t0 + 30 * (j + k + 1)) (R (j + k + 1))
            (runTrace t0 R s (j + k + 1)) := by
      rw [show j + k + 2 = (j + k + 1) + 1 from by omega]
      rfl
    rw [hrun]
    refine ⟨?_, hstep.1, hstep.2.1⟩
    rw [hstep.2.2.2.1, b3]
    have hmod : ((t0 + 30 * ((j : Int) + k + 1)) - tickTime t0 j) % 30 = 0 := by
      unfold tickTime
      omega
    have harg : (t0 + 30 * (((j + k + 1 : Nat)) : Int)) - tickTime t0 j
        = (t0 + 30 * ((j : Int) + k + 1)) - tickTime t0 j := by
      push_cast
      ring
    rw [show (t0 + 30 * (((j + k + 1 : Nat)) : Int)) = tickTime t0 (j + k + 1) from rfl] at harg
    unfold tickTime at harg hmod ⊢
    push_cast at harg hmod ⊢
    omega

/-- Witness for C1 on a concrete trace: `p` joins at tick 1, stays
through tick 3, is detected absent at tick 4. While online the accrued
playtime equals wall-clock since the join; after the leave it is
wall-clock minus one tick interval. -/
theorem C1_witness :
    (playtimeOf "p" (runTrace 0 C1roster sysEmpty 4).db
        = playtimeOf "p" sysEmpty.db + (tickTime 0 3 - tickTime 0 1) ∧
      startOf "p" (runTrace 0 C1roster sysEmpty 4) = some (tickTime 0 1) ∧
      get_current_session_duration (tickTime 0 3) "p" (runTrace 0 C1roster sysEmpty 4)
        = tickTime 0 3 - tickTime 0 1) ∧
    (playtimeOf "p" (runTrace 0 C1roster sysEmpty 5).db
        = playtimeOf "p" sysEmpty.db + (tickTime 0 4 - tickTime 0 1) - 30 ∧
      trackOf "p" (runTrace 0 C1roster sysEmpty 5) = none ∧
      startOf "p" (runTrace 0 C1roster sysEmpty 5) = none) := by
  obtain ⟨hOn, hOff⟩ := C1_accrual_matches_wall_clock 0 C1roster sysEmpty "p" 1 2
    ⟨by decide, by decide⟩ rfl rfl (by decide)
    (by
      intro i hi
      interval_cases i
      decide)
    (by
      intro i h1 h2
      interval_cases i <;> decide)
    (by decide)
  exact ⟨hOn 2 (by decide), hOff⟩

/-- Counterexample for C1 as stated: for a still-online player (joined at
time 0, seen at ticks 0, 30, 60) the stored accrued playtime is 60 and
the running session duration at time 60 is also 60; their sum 120 is not
within one tick-interval (30 s) of the wall-clock 60 since first join —
the claim's "accrued plus running duration" double-counts. -/
theorem C1_counterexample :
    playtimeOf "p" (runTrace 0 (fun _ => [mkPE "p" 5]) sysEmpty 3).db = 60 ∧
    get_current_session_duration 60 "p" (runTrace 0 (fun _ => [mkPE "p" 5]) sysEmpty 3) = 60 ∧
    ¬((60 + 60 : Int) - (60 - 0) ≤ 30) := by
  refine ⟨by decide, by decide, by decide⟩

/-! ### Claim C2 support: notifier diffing lemmas -/

theorem mem_dedupFirst {l : List String} {q : String} : q ∈ dedupFirst l ↔ q ∈ l := by
  induction l with
  | nil => simp [dedupFirst]
  | cons a t ih =>
      rw [dedupFirst]
      constructor
      · intro h
        rcases List.mem_cons.mp h with h1 | h1
        · exact h1 ▸ List.mem_cons_self a t
        · exact List.mem_cons_of_mem a (ih.mp (List.mem_of_mem_filter h1))
      · intro h
        rcases List.mem_cons.mp h with h1 | h1
        · exact h1 ▸ List.mem_cons_self a _
        · by_cases hqa : q = a
          · exact hqa ▸ List.mem_cons_self a _
          · exact List.mem_cons_of_mem a
              (List.mem_filter.mpr ⟨ih.mpr h1, by simpa using hqa⟩)

theorem dedupFirst_nodup (l : List String) : (dedupFirst l).Nodup := by
  induction l with
  | nil => simp [dedupFirst]
  | cons a t ih =>
      rw [dedupFirst, List.nodup_cons]
      constructor
      · intro hmem
        have := (List.mem_filter.mp hmem).2
        simp at this
      · exact ih.filter _

theorem truthyNamesRaw_not_mem {players : List PEntry} {p : String}
    (h : ∀ e ∈ players, e.name ≠ p) : p ∉ truthyNamesRaw players := by
  induction players with
  | nil => simp [truthyNamesRaw]
  | cons e t ih =>
      have he := h e (List.mem_cons_self e t)
      have ht := ih (fun e' he' => h e' (List.mem_cons_of_mem e he'))
      rw [truthyNamesRaw]
      by_cases hs : e.name = ""
      · rw [if_pos hs]
        exact ht
      · rw [if_neg hs]
        intro hmem
        rcases List.mem_cons.mp hmem with h1 | h1
        · exact he h1.symm
        · exact ht h1

theorem truthyNamesRaw_mem {players : List PEntry} {pe : PEntry} {p : String}
    (hmem : pe ∈ players) (hname : pe.name = p) (hval : p ≠ "") :
    p ∈ truthyNamesRaw players := by
  induction players with
  | nil => exact absurd hmem (List.not_mem_nil pe)
  | cons e t ih =>
      rw [truthyNamesRaw]
      rcases List.mem_cons.mp hmem with h1 | h1
      · subst h1
        rw [hname, if_neg hval]
        exact List.mem_cons_self p _
      · by_cases hs : e.name = ""
        · rw [if_pos hs]
          exact ih h1
        · rw [if_neg hs]
          exact List.mem_cons_of_mem e.name (ih h1)

theorem mem_setDiff {l avoid : List String} {q : String} :
    q ∈ setDiff l avoid ↔ q ∈ l ∧ q ∉ avoid := by
  unfold setDiff
  constructor
  · intro h
    exact ⟨List.mem_of_mem_filter h, by simpa using (List.mem_filter.mp h).2⟩
  · intro ⟨h1, h2⟩
    exact List.mem_filter.mpr ⟨h1, by simpa using h2⟩

theorem countP_setDiff {l avoid : List String} {p : String} (h : p ∉ avoid) :
    (setDiff l avoid).countP (fun q => q == p) = l.countP (fun q => q == p) := by
  induction l with
  | nil => rfl
  | cons a t ih =>
      unfold setDiff at ih ⊢
      rw [List.filter_cons]
      by_cases ha : a ∈ avoid
      · have hap : ¬(a == p) := fun hb => h ((eq_of_beq hb) ▸ ha)
        rw [if_neg (by simpa using ha), List.countP_cons, if_neg (by simpa using hap), ih]
        omega
      · rw [if_pos (by simpa using ha), List.countP_cons, List.countP_cons, ih]

theorem findByName_split {A B : List PEntry} {pe : PEntry} {p : String}
    (hpe : pe.name = p) (hA : ∀ e ∈ A, e.name ≠ p) :
    findByName p (A ++ pe :: B) = some pe := by
  induction A with
  | nil => simp [findByName, hpe]
  | cons e t ih =>
      rw [List.cons_append, findByName,
        if_neg (hA e (List.mem_cons_self e t))]
      exact ih (fun e' he' => hA e' (List.mem_cons_of_mem e he'))

/-- The notifier state (and bot flag) is untouched by the reconciler. -/
theorem update_player_data_notif (now : Int) (players : List PEntry) (s : Sys) :
    (update_player_data now players s).previous_players = s.previous_players ∧
    (update_player_data now players s).player_join_times = s.player_join_times := by
  unfold update_player_data
  have h1 : ∀ (l : List PEntry) (st : Sys),
      (l.foldl (processEntry now) st).previous_players = st.previous_players ∧
      (l.foldl (processEntry now) st).player_join_times = st.player_join_times := by
    intro l
    induction l with
    | nil => intro st; exact ⟨rfl, rfl⟩
    | cons a t ih =>
        intro st
        obtain ⟨e1, e2⟩ := processEntry_notif now st a
        obtain ⟨f1, f2⟩ := ih (processEntry now st a)
        exact ⟨f1.trans e1, f2.trans e2⟩
  have h2 : ∀ (l : List String) (st : Sys),
      (l.foldl (processLeave now) st).previous_players = st.previous_players ∧
      (l.foldl (processLeave now) st).player_join_times = st.player_join_times := by
    intro l
    induction l with
    | nil => intro st; exact ⟨rfl, rfl⟩
    | cons a t ih =>
        intro st
        obtain ⟨e1, e2⟩ := processLeave_notif now st a
        obtain ⟨f1, f2⟩ := ih (processLeave now st a)
        exact ⟨f1.trans e1, f2.trans e2⟩
  obtain ⟨g1, g2⟩ := h2 _ (players.foldl (processEntry now) s)
  obtain ⟨g3, g4⟩ := h1 players s
  exact ⟨g1.trans g3, g2.trans g4⟩

theorem notifDur_congr {now : Int} {p : String} {st s' : Sys}
    (h : st.player_join_times = s'.player_join_times) :
    notifDur now p st = notifDur now p s' := by
  unfold notifDur
  rw [h]

/-- Notifier diffing for a departed player: exactly one leave event (no
reason field), duration from the notifier's own join-time map. -/
theorem check_player_changes_leave_p {players : List PEntry} {p : String} {s : Sys}
    (hcnt : s.previous_players.countP (fun q => q == p) = 1)
    (hall : ∀ e ∈ players, e.name ≠ p) (now : Int) :
    evOf p (check_player_changes now players s)
      = evOf p s ++ [⟨now, "leave", p, ⟨none, none, some (notifDur now p s), none⟩⟩] ∧
    recOf p (check_player_changes now players s) = recOf p s := by
  have hnotc : p ∉ truthyNames players :=
    fun hmem => truthyNamesRaw_not_mem hall (mem_dedupFirst.mp hmem)
  have hjoin : p ∉ setDiff (truthyNames players) s.previous_players :=
    fun hmem => hnotc (mem_setDiff.mp hmem).1
  have hs1 := foldl_preserve (fun st q => handle_player_join now q players st)
    (fun st => evOf p st = evOf p s ∧ recOf p st = recOf p s ∧
      st.player_join_times = s.player_join_times)
    (setDiff (truthyNames players) s.previous_players) s
    (fun st q hq hP => by
      have hqp : q ≠ p := fun h => hjoin (h ▸ hq)
      obtain ⟨f1, f2⟩ := handle_join_frame hqp now players st
      exact ⟨f2.trans hP.1, f1.trans hP.2.1,
        ((handle_join_maps now q players st).2.2.2.1).trans hP.2.2⟩)
    ⟨rfl, rfl, rfl⟩
  have hcnt2 : (setDiff s.previous_players (truthyNames players)).countP
      (fun q => q == p) = 1 := by
    rw [countP_setDiff hnotc]
    exact hcnt
  have hs2 := foldl_once (fun st q => handle_player_leave now q st)
    (fun st => evOf p st = evOf p s ∧ recOf p st = recOf p s ∧
      st.player_join_times = s.player_join_times)
    (fun st => evOf p st
        = evOf p s ++ [⟨now, "leave", p, ⟨none, none, some (notifDur now p s), none⟩⟩] ∧
      recOf p st = recOf p s)
    (fun q => q == p)
    (setDiff s.previous_players (truthyNames players))
    (fun st q _ hne hQ => by
      have hqp : q ≠ p := by simpa using hne
      obtain ⟨f1, f2⟩ := handle_leave_frame hqp now st
      exact ⟨f2.trans hQ.1, f1.trans hQ.2.1,
        ((handle_leave_maps now q st).2.2.2.1).trans hQ.2.2⟩)
    (fun st q _ hne hR => by
      have hqp : q ≠ p := by simpa using hne
      obtain ⟨f1, f2⟩ := handle_leave_frame hqp now st
      exact ⟨f2.trans hR.1, f1.trans hR.2⟩)
    (fun st q _ heq hQ => by
      have hqp : q = p := by simpa using heq
      subst hqp
      obtain ⟨r1, r2⟩ := handle_leave_self q now st
      refine ⟨?_, r1.trans hQ.2.1⟩
      rw [r2, hQ.1, notifDur_congr hQ.2.2])
    ((setDiff (truthyNames players) s.previous_players).foldl
      (fun st q => handle_player_join now q players st) s)
    hcnt2 hs1
  exact ⟨hs2.1, hs2.2⟩

/-- Notifier diffing for a (re)appearing player with an existing record:
exactly one join event carrying the entry's ping/identifiers, and one
more `totalSessions` increment. -/
theorem check_player_changes_join_p {A B players : List PEntry} {pe : PEntry} {p : String}
    {s : Sys} {r : PlayerRec}
    (hplayers : players = A ++ pe :: B) (hpe : pe.name = p) (hA : ∀ e ∈ A, e.name ≠ p)
    (hval : p ≠ "") (hprev : p ∉ s.previous_players) (hrec : recOf p s = some r)
    (now : Int) :
    evOf p (check_player_changes now players s)
      = evOf p s ++ [⟨now, "join", p, ⟨some pe.ping, some pe.identifiers, none, none⟩⟩] ∧
    recOf p (check_player_changes now players s)
      = some ({ r with totalSessions := r.totalSessions + 1 }) := by
  have hmemc : p ∈ truthyNames players :=
    mem_dedupFirst.mpr
      (truthyNamesRaw_mem (hplayers ▸ List.mem_append_right A (List.mem_cons_self pe B))
        hpe hval)
  have hmemj : p ∈ setDiff (truthyNames players) s.previous_players :=
    mem_setDiff.mpr ⟨hmemc, hprev⟩
  have hndj : (setDiff (truthyNames players) s.previous_players).Nodup :=
    (dedupFirst_nodup (truthyNamesRaw players)).filter _
  have hcntj : (setDiff (truthyNames players) s.previous_players).countP
      (fun q => q == p) = 1 :=
    List.count_eq_one_of_mem hndj hmemj
  have hfind : findByName p players = some pe := hplayers ▸ findByName_split hpe hA
  have hs1 := foldl_once (fun st q => handle_player_join now q players st)
    (fun st => evOf p st = evOf p s ∧ recOf p st = some r)
    (fun st => evOf p st
        = evOf p s ++ [⟨now, "join", p, ⟨some pe.ping, some pe.identifiers, none, none⟩⟩] ∧
      recOf p st = some ({ r with totalSessions := r.totalSessions + 1 }))
    (fun q => q == p)
    (setDiff (truthyNames players) s.previous_players)
    (fun st q _ hne hQ => by
      have hqp : q ≠ p := by simpa using hne
      obtain ⟨f1, f2⟩ := handle_join_frame hqp now players st
      exact ⟨f2.trans hQ.1, f1.trans hQ.2⟩)
    (fun st q _ hne hR => by
      have hqp : q ≠ p := by simpa using hne
      obtain ⟨f1, f2⟩ := handle_join_frame hqp now players st
      exact ⟨f2.trans hR.1, f1.trans hR.2⟩)
    (fun st q _ heq hQ => by
      have hqp : q = p := by simpa using heq
      subst hqp
      refine ⟨?_, handle_join_self_rec_some hfind hQ.2 now⟩
      rw [handle_join_self hfind now st, hQ.1])
    s hcntj ⟨rfl, hrec⟩
  have hnotl : p ∉ setDiff s.previous_players (truthyNames players) :=
    fun hmem => hprev (mem_setDiff.mp hmem).1
  have hs2 := foldl_preserve (fun st q => handle_player_leave now q st)
    (fun st => evOf p st
        = evOf p s ++ [⟨now, "join", p, ⟨some pe.ping, some pe.identifiers, none, none⟩⟩] ∧
      recOf p st = some ({ r with totalSessions := r.totalSessions + 1 }))
    (setDiff s.previous_players (truthyNames players))
    ((setDiff (truthyNames players) s.previous_players).foldl
      (fun st q => handle_player_join now q players st) s)
    (fun st q hq hP => by
      have hqp : q ≠ p := fun h => hnotl (h ▸ hq)
      obtain ⟨f1, f2⟩ := handle_leave_frame hqp now st
      exact ⟨f2.trans hP.1, f1.trans hP.2⟩)
    hs1
  exact ⟨hs2.1, hs2.2⟩

theorem evOf_log_ping (now : Int) (sp : ℚ) (st : Sys) (p : String) :
    evOf p (log_ping_data now sp st) = evOf p st := by
  unfold evOf
  exact eventsFor_of_event_logs_eq (log_ping_data_maps now sp st).2.2.2.2.2

theorem recOf_log_ping (now : Int) (sp : ℚ) (st : Sys) (p : String) :
    recOf p (log_ping_data now sp st) = recOf p st := by
  unfold recOf
  rw [(log_ping_data_maps now sp st).2.2.2.2.1]

/-! ### Claim C2 -/

/-- Claim C2 (amended): a tracked player absent from the next non-empty
processed snapshot produces exactly TWO leave events on that tick — one
from the analytics reconciler with `session_duration = now - start`, one
from the notification manager with its own duration — and NEITHER carries
a reason field; a reappearing player (with an existing record) produces
exactly TWO join events and `totalSessions` grows by exactly two. There
is no merged or grace session: the departure is final on its tick and the
reappearance starts a fresh session. -/
theorem C2_double_events_no_grace :
    (∀ (now : Int) (d : ServerData) (s : Sys) (p : String) (info : TrackInfo) (t0 : Int),
      d.online = true → d.players ≠ [] → (∀ e ∈ d.players, e.name ≠ p) →
      ndInv s → trackOf p s = some info → startOf p s = some t0 →
      s.previous_players.countP (fun q => q == p) = 1 →
      evOf p (update_server_status now (some d) s)
        = evOf p s ++ [⟨now, "leave", p, ⟨none, none, some (now - t0), none⟩⟩,
                       ⟨now, "leave", p, ⟨none, none, some (notifDur now p s), none⟩⟩]) ∧
    (∀ (now : Int) (d : ServerData) (s : Sys) (p : String) (pe : PEntry)
        (A B : List PEntry) (r : PlayerRec),
      d.online = true → d.players = A ++ pe :: B → pe.name = p →
      (∀ e ∈ A, e.name ≠ p) → (∀ e ∈ B, e.name ≠ p) → ¬(p = "" ∨ p = "Unknown") →
      ndInv s → trackOf p s = none → p ∉ s.previous_players → recOf p s = some r →
      evOf p (update_server_status now (some d) s)
        = evOf p s ++ [⟨now, "join", p, ⟨some pe.ping, some pe.identifiers, none, none⟩⟩,
                       ⟨now, "join", p, ⟨some pe.ping, some pe.identifiers, none, none⟩⟩] ∧
      sessionsOf p (update_server_status now (some d) s).db = r.totalSessions + 2) := by
  constructor
  · intro now d s p info t0 hon hne hall hnd htrack hstart hcnt
    unfold update_server_status
    simp only [hon, if_true, if_neg hne]
    obtain ⟨_, _, ha3, _, _⟩ := update_player_data_absent hnd hall htrack hstart now
    obtain ⟨hn1, hn2⟩ := update_player_data_notif now d.players s
    have hev_sb : evOf p (log_ping_data now d.ping (update_player_data now d.players s))
        = evOf p s ++ [⟨now, "leave", p, ⟨none, none, some (now - t0), none⟩⟩] := by
      rw [evOf_log_ping, ha3]
    have hprev_sb : (log_ping_data now d.ping
        (update_player_data now d.players s)).previous_players = s.previous_players := by
      rw [(log_ping_data_maps now d.ping _).2.2.1, hn1]
    have hjt_sb : (log_ping_data now d.ping
        (update_player_data now d.players s)).player_join_times = s.player_join_times := by
      rw [(log_ping_data_maps now d.ping _).2.2.2.1, hn2]
    obtain ⟨hc1, -⟩ := @check_player_changes_leave_p d.players p
      (log_ping_data now d.ping (update_player_data now d.players s))
      (by rw [hprev_sb]; exact hcnt) hall now
    have hfin : evOf p (check_player_changes now d.players
        (log_ping_data now d.ping (update_player_data now d.players s)))
        = evOf p s ++ [⟨now, "leave", p, ⟨none, none, some (now - t0), none⟩⟩,
                       ⟨now, "leave", p, ⟨none, none, some (notifDur now p s), none⟩⟩] := by
      rw [hc1, hev_sb, notifDur_congr hjt_sb, List.append_assoc]
      rfl
    exact hfin
  · intro now d s p pe A B r hon hd hpe hA hB hval hnd htrack hprev hrec
    have hne : d.players ≠ [] := by
      rw [hd]
      simp
    unfold update_server_status
    simp only [hon, if_true, if_neg hne]
    have hstep := @update_player_data_present_new A B pe p s hnd hpe hA hB hval htrack now
    rw [← hd] at hstep
    obtain ⟨hn1, hn2⟩ := update_player_data_notif now d.players s
    have hrec_sa : recOf p (update_player_data now d.players s)
        = some ({ r with identifiers := pe.identifiers, lastSeen := now, job := pe.job,
                         role := pe.role, ping := pe.ping, playtime := r.playtime + 0,
                         totalSessions := r.totalSessions + 1 }) :=
      hstep.2.2.2.1 r hrec
    have hev_sb : evOf p (log_ping_data now d.ping (update_player_data now d.players s))
        = evOf p s ++ [⟨now, "join", p, ⟨some pe.ping, some pe.identifiers, none, none⟩⟩] := by
      rw [evOf_log_ping, hstep.2.2.1]
    have hrec_sb : recOf p (log_ping_data now d.ping (update_player_data now d.players s))
        = some ({ r with identifiers := pe.identifiers, lastSeen := now, job := pe.job,
                         role := pe.role, ping := pe.ping, playtime := r.playtime + 0,
                         totalSessions := r.totalSessions + 1 }) := by
      rw [recOf_log_ping]
      exact hrec_sa
    have hprev_sb : (log_ping_data now d.ping
        (update_player_data now d.players s)).previous_players = s.previous_players := by
      rw [(log_ping_data_maps now d.ping _).2.2.1, hn1]
    obtain ⟨hc1, hc2⟩ := @check_player_changes_join_p A B d.players pe p
      (log_ping_data now d.ping (update_player_data now d.players s)) _
      hd hpe hA (fun h => hval (Or.inl h)) (by rw [hprev_sb]; exact hprev) hrec_sb now
    constructor
    · have hfin : evOf p (check_player_changes now d.players
          (log_ping_data now d.ping (update_player_data now d.players s)))
          = evOf p s ++ [⟨now, "join", p, ⟨some pe.ping, some pe.identifiers, none, none⟩⟩,
                         ⟨now, "join", p, ⟨some pe.ping, some pe.identifiers, none, none⟩⟩] := by
        rw [hc1, hev_sb, List.append_assoc]
        rfl
      exact hfin
    · have hfin : sessionsOf p (check_player_changes now d.players
          (log_ping_data now d.ping (update_player_data now d.players s))).db
          = r.totalSessions + 2 := by
        rw [sessionsOf_eq_some hc2]
      exact hfin

/-- Witness for C2: a tracked, notified player departing at time 30 gets
exactly the two reason-less leave events; a returning player with one
recorded session gets two join events and lands on `totalSessions = 3`. -/
theorem C2_witness :
    (evOf "p" (update_server_status 30 (some ⟨true, 50, [mkPE "q" 1]⟩)
        ⟨dbEmpty, [("p", ⟨0, 5, [], "civilian", "civilian"⟩)], [("p", 0)], ["p"],
         [("p", 0)], true⟩)
      = evOf "p" (⟨dbEmpty, [("p", ⟨0, 5, [], "civilian", "civilian"⟩)], [("p", 0)], ["p"],
         [("p", 0)], true⟩ : Sys)
        ++ [⟨30, "leave", "p", ⟨none, none, some ((30 : Int) - 0), none⟩⟩,
            ⟨30, "leave", "p", ⟨none, none, some (notifDur 30 "p"
              ⟨dbEmpty, [("p", ⟨0, 5, [], "civilian", "civilian"⟩)], [("p", 0)], ["p"],
               [("p", 0)], true⟩), none⟩⟩]) ∧
    (evOf "p" (update_server_status 60 (some ⟨true, 50, [mkPE "p" 5]⟩)
        ⟨⟨[("p", ⟨[], 0, "civilian", "civilian", 5, 0, 0, 1⟩)], [], []⟩, [], [], [], [], true⟩)
      = evOf "p" (⟨⟨[("p", ⟨[], 0, "civilian", "civilian", 5, 0, 0, 1⟩)], [], []⟩, [], [], [],
          [], true⟩ : Sys)
        ++ [⟨60, "join", "p", ⟨some (mkPE "p" 5).ping, some (mkPE "p" 5).identifiers,
              none, none⟩⟩,
            ⟨60, "join", "p", ⟨some (mkPE "p" 5).ping, some (mkPE "p" 5).identifiers,
              none, none⟩⟩] ∧
      sessionsOf "p" (update_server_status 60 (some ⟨true, 50, [mkPE "p" 5]⟩)
        ⟨⟨[("p", ⟨[], 0, "civilian", "civilian", 5, 0, 0, 1⟩)], [], []⟩, [], [], [],
          [], true⟩).db = 3) := by
  have h1 := C2_double_events_no_grace.1 30 ⟨true, 50, [mkPE "q" 1]⟩
    ⟨dbEmpty, [("p", ⟨0, 5, [], "civilian", "civilian"⟩)], [("p", 0)], ["p"], [("p", 0)], true⟩
    "p" ⟨0, 5, [], "civilian", "civilian"⟩ 0 rfl (by decide) (by decide)
    ⟨by decide, by decide⟩ rfl rfl (by decide)
  have h2 := C2_double_events_no_grace.2 60 ⟨true, 50, [mkPE "p" 5]⟩
    ⟨⟨[("p", ⟨[], 0, "civilian", "civilian", 5, 0, 0, 1⟩)], [], []⟩, [], [], [], [], true⟩
    "p" (mkPE "p" 5) [] [] ⟨[], 0, "civilian", "civilian", 5, 0, 0, 1⟩
    rfl rfl rfl (by decide) (by decide) (by decide)
    ⟨by decide, by decide⟩ rfl (by decide) rfl
  exact ⟨h1, h2.1, h2.2⟩

/-- Counterexample for C2 as stated: over the run join(p,q) at 0, p
absent at 30, p back at 60, the departure produces TWO leave events for
p, none carrying reason "departed", and the rejoin lifts `totalSessions`
from 1 to 3 (an increment of two, not one). -/
theorem C2_counterexample :
    (eventsFor "p" (update_server_status 30 (some ⟨true, 50, [mkPE "q" 20]⟩)
        (update_server_status 0 (some ⟨true, 50, [mkPE "p" 10, mkPE "q" 20]⟩)
          sysEmpty)).db).countP (fun e => e.etype == "leave") = 2 ∧
    (eventsFor "p" (update_server_status 30 (some ⟨true, 50, [mkPE "q" 20]⟩)
        (update_server_status 0 (some ⟨true, 50, [mkPE "p" 10, mkPE "q" 20]⟩)
          sysEmpty)).db).countP (fun e => e.details.reason == some "departed") = 0 ∧
    sessionsOf "p" (update_server_status 30 (some ⟨true, 50, [mkPE "q" 20]⟩)
        (update_server_status 0 (some ⟨true, 50, [mkPE "p" 10, mkPE "q" 20]⟩)
          sysEmpty)).db = 1 ∧
    sessionsOf "p" (update_server_status 60 (some ⟨true, 50, [mkPE "p" 10, mkPE "q" 20]⟩)
        (update_server_status 30 (some ⟨true, 50, [mkPE "q" 20]⟩)
          (update_server_status 0 (some ⟨true, 50, [mkPE "p" 10, mkPE "q" 20]⟩)
            sysEmpty))).db = 3 := by
  refine ⟨by decide, by decide, by decide, by decide⟩
